import Mathlib

/-!
Verification development for the-rules-engine (a forward-chaining
production-rule engine in JavaScript).  The definitions below are a shallow
embedding of the engine's source: `lib/working-memory-indexer.js`,
`lib/nodes.js`, `lib/rules-engine.js`, `lib/fact.js` and the compiler
(`compileConditions`).  JavaScript objects are modelled as insertion-ordered
association lists, JS `Map`/`Set` as insertion-ordered lists, JS fact-object
identity as structural equality (fact ids are unique, so the two coincide),
and JS numbers appearing as recencies as `WithBot Nat` so that
`Math.max()` over an empty list is `⊥` (JavaScript's `-Infinity`).
-/

namespace TheRulesEngine

/-- A JavaScript value as far as the engine inspects one: payload fields,
aggregator results, and `type` fields.  `vnull` stands for `null`/`undefined`
appearing as a stored value. -/
inductive Val where
  | str (s : String)
  | num (n : Int)
  | bool (b : Bool)
  | vnull
deriving DecidableEq

/-- JavaScript truthiness of a `Val`: `""`, `0`, `false` and `null` are
falsy; every other modelled value is truthy. -/
def Val.truthy : Val → Bool
  | .str s => s ≠ ""
  | .num n => n ≠ 0
  | .bool b => b
  | .vnull => false

/-- A JS-object payload: string keys to values, in insertion order. -/
abbrev Payload := List (String × Val)

/-- Lookup of a key in a JS object modelled as an association list
(a property read; `none` models `undefined`). -/
def alookup {β : Type} (k : String) : List (String × β) → Option β
  | [] => none
  | (k', v) :: rest => if k' = k then some v else alookup k rest

/-- `Object.assign(target, source)`: overwrite the named keys in place,
append keys that are new, preserving the target's key order. -/
def mergeAssign (target source : Payload) : Payload :=
  source.foldl (fun acc kv => assignKey acc kv.1 kv.2) target
where
  /-- Set one key: overwrite the first occurrence in place, else append. -/
  assignKey : Payload → String → Val → Payload
    | [], k, v => [(k, v)]
    | (k', v') :: rest, k, v =>
        if k' = k then (k, v) :: rest else (k', v') :: assignKey rest k v

/-- A fact (`lib/fact.js`): unique integer id, payload `data` (which holds
the `type` field, per the source `fact.data.type`), and a recency stamped by
the working memory. -/
structure Fact where
  id : Nat
  data : Payload
  recency : Nat
deriving DecidableEq

/-- The `type` of a fact is the `type` field of its payload (the source
reads `fact.data.type`; `vnull` models an absent field). -/
def Fact.type (f : Fact) : Val :=
  (alookup "type" f.data).getD .vnull

/-- Engine error kinds, named after the spec's abstract error names; each JS
`throw new Error(...)` site maps to one of these. -/
inductive JsError where
  | notFound
  | typeImmutable
  | missingType
  | invalidDSL (msg : String)
  | typeError
  | maxCyclesExceeded
deriving DecidableEq

/-- Add an element to a JS `Set` modelled as a list: no-op when already a
member, else append (JS sets iterate in insertion order). -/
def setAdd {α : Type} [DecidableEq α] (l : List α) (a : α) : List α :=
  if a ∈ l then l else l ++ [a]

/-- The working memory indexer (`lib/working-memory-indexer.js`, the draft
with two dirty sets): a `Map` from type to the `Set` of facts of that type,
a version counter stamping recencies, and the current/next dirty type
sets. -/
structure WMI where
  typeIndex : List (Val × List Fact)
  versionCounter : Nat
  dirtyCur : List Val
  dirtyNext : List Val
deriving DecidableEq

/-- A freshly constructed indexer. -/
def WMI.mk0 : WMI := ⟨[], 1, [], []⟩

/-- Map lookup on the type index. -/
def WMI.bucket (w : WMI) (ty : Val) : Option (List Fact) :=
  (w.typeIndex.find? (fun kv => kv.1 = ty)).map Prod.snd

/-- `getByType`: `Array.from(this.typeIndex.get(type) || [])`. -/
def WMI.getByType (w : WMI) (ty : Val) : List Fact :=
  (w.bucket ty).getD []

/-- Replace (or create) the bucket of a type, preserving map key order. -/
def WMI.setBucket (w : WMI) (ty : Val) (fs : List Fact) : WMI :=
  if (w.typeIndex.find? (fun kv => kv.1 = ty)).isSome then
    { w with typeIndex := w.typeIndex.map (fun kv => if kv.1 = ty then (ty, fs) else kv) }
  else
    { w with typeIndex := w.typeIndex ++ [(ty, fs)] }

/-- Delete a type's bucket from the map (used when a bucket empties). -/
def WMI.deleteBucket (w : WMI) (ty : Val) : WMI :=
  { w with typeIndex := w.typeIndex.filter (fun kv => ¬ kv.1 = ty) }

/-- `insertFact`: stamp `recency = versionCounter++`, add the fact to its
type's set, and mark the type dirty for the next cycle. -/
def WMI.insertFact (w : WMI) (f : Fact) : WMI :=
  let f := { f with recency := w.versionCounter }
  let w := { w with versionCounter := w.versionCounter + 1 }
  let w := w.setBucket f.type (setAdd (w.getByType f.type) f)
  { w with dirtyNext := setAdd w.dirtyNext f.type }

/-- `_findFactById`: scan every bucket, in map order, for the id. -/
def WMI.findFactById (w : WMI) (factId : Nat) : Option Fact :=
  (w.typeIndex.flatMap (fun kv => kv.2)).find? (fun f => f.id = factId)

/-- Replace a fact (matched by id) inside its bucket in place; the JS code
mutates the shared fact object, which in this pure model is re-seating the
updated value at the same position. -/
def WMI.replaceFact (w : WMI) (old upd : Fact) : WMI :=
  { w with typeIndex :=
      w.typeIndex.map (fun kv => (kv.1, kv.2.map (fun f => if f = old then upd else f))) }

/-- `updateFact(factId, newData)` of the authoritative draft: fail when the
id is absent; throw when `newData.type` is truthy and differs from the
current `fact.data.type`; otherwise `Object.assign` the payload, stamp
`recency = versionCounter++`, and mark the (post-merge) `fact.data.type`
dirty for the next cycle. -/
def WMI.updateFact (w : WMI) (factId : Nat) (newData : Payload) : Except JsError WMI :=
  match w.findFactById factId with
  | none => .error .notFound
  | some fact =>
    let newTy := (alookup "type" newData).getD .vnull
    if newTy.truthy ∧ ¬ newTy = fact.type then
      .error .typeImmutable
    else
      let upd : Fact := { fact with data := mergeAssign fact.data newData,
                                    recency := w.versionCounter }
      let w := { w with versionCounter := w.versionCounter + 1 }
      let w := w.replaceFact fact upd
      .ok { w with dirtyNext := setAdd w.dirtyNext upd.type }

/-- `removeFact(factId)`: fail when absent; delete the fact from its type's
set, dropping the bucket if it empties; mark the type dirty next. -/
def WMI.removeFact (w : WMI) (factId : Nat) : Except JsError WMI :=
  match w.findFactById factId with
  | none => .error .notFound
  | some fact =>
    let ty := fact.type
    let rest := (w.getByType ty).filter (fun f => ¬ f = fact)
    let w := if rest.isEmpty then w.deleteBucket ty else w.setBucket ty rest
    .ok { w with dirtyNext := setAdd w.dirtyNext ty }

/-- `allFacts`: concatenate every bucket in map order. -/
def WMI.allFacts (w : WMI) : List Fact :=
  w.typeIndex.flatMap (fun kv => kv.2)

/-- `clearDirtyCurrentCycle`. -/
def WMI.clearDirtyCurrentCycle (w : WMI) : WMI := { w with dirtyCur := [] }

/-- `promoteNextCycleDirty`: move the next-cycle dirty types into the
current set and empty the next set. -/
def WMI.promoteNextCycleDirty (w : WMI) : WMI :=
  { w with dirtyCur := w.dirtyNext.foldl setAdd w.dirtyCur, dirtyNext := [] }

/-- `getDirtyTypesCurrentCycle`. -/
def WMI.getDirtyTypesCurrentCycle (w : WMI) : List Val := w.dirtyCur

/-- `isTypeDirty`: member of either dirty set. -/
def WMI.isTypeDirty (w : WMI) (ty : Val) : Bool :=
  ty ∈ w.dirtyCur ∨ ty ∈ w.dirtyNext

/-- A partial match flowing through the node network: the contributing
facts in network order, the variable bindings (a JS object: name to fact),
and the `accumulatorResult` property that only incremental accumulators
attach (`none` models the property being absent). -/
structure MatchE where
  facts : List Fact
  bindings : List (String × Fact)
  accumulatorResult : Option Val := none
deriving DecidableEq

/-- `unifyBindings(pm1, pm2)` from `lib/nodes.js`: start from a copy of the
left bindings; walk the right bindings in order; a key already present must
be bound to the identical fact, otherwise unification fails (`none`); an
absent key is inserted. -/
def unifyBindings (pm1 pm2 : MatchE) : Option (List (String × Fact)) :=
  pm2.bindings.foldl
    (fun acc kv =>
      acc.bind fun u =>
        match alookup kv.1 u with
        | some v => if v = kv.2 then some u else none
        | none => some (u ++ [kv]))
    (some pm1.bindings)

/-- `joinPartialMatches(leftMatches, rightMatches)`: every left/right pair
whose bindings unify contributes a match whose fact list is the left facts
followed by the right facts. -/
def joinPartialMatches (leftMatches rightMatches : List MatchE) : List MatchE :=
  leftMatches.flatMap fun l =>
    rightMatches.filterMap fun r =>
      (unifyBindings l r).map fun u => { facts := l.facts ++ r.facts, bindings := u }

/-- The per-binding-context state of an incremental accumulator: the
accumulated value and the `processedFacts` map (fact id to fact, insertion
ordered like a JS `Map`). -/
structure AccStateE where
  accState : Val
  processedFacts : List (Nat × Fact)
deriving DecidableEq

/-- `Map.prototype.set`: overwrite an existing key in place, else append. -/
def msetEntry : List (Nat × Fact) → Nat → Fact → List (Nat × Fact)
  | [], id, f => [(id, f)]
  | (k, g) :: rest, id, f =>
      if k = id then (id, f) :: rest else (k, g) :: msetEntry rest id f

/-- The configuration of an incremental accumulator as stored on the node:
`initial` is the value the `initial()` thunk returns, `convert` is already
defaulted to the identity when the DSL omitted it (the constructor's
`convert || (state => state)`). -/
structure IncrSpec where
  initial : Val
  reduce : Val → Fact → Val
  retract : Option (Val → Fact → Val)
  convert : Val → Val
  test : Val → Bool

/-- `AccumulatorNode.evaluateSimple`: aggregate all facts at once, test the
scalar, and emit one binding-free match on success. -/
def evaluateSimple (aggregator : List Fact → Val) (accTest : Val → Bool)
    (allFacts : List Fact) : List MatchE :=
  let aggResult := aggregator allFacts
  if accTest aggResult then [{ facts := allFacts, bindings := [] }] else []

/-- `AccumulatorNode.evaluateIncremental`: get or create the state for the
(always-empty) binding key; compute the add-set (current facts not yet
processed) and remove-set (processed entries no longer current); retract the
removed facts when a `retract` function exists, otherwise reset the state to
`initial` and push *all* current facts onto the already computed add-set
(the source's `toAdd.push(...allFacts)`); reduce every add-set entry;
convert, test, and emit one match carrying `accumulatorResult` on
success.  Returns the matches and the updated state slot. -/
def evaluateIncremental (sp : IncrSpec) (stateMap : Option AccStateE)
    (allFacts : List Fact) : List MatchE × Option AccStateE :=
  let state := stateMap.getD { accState := sp.initial, processedFacts := [] }
  let currentIds := allFacts.map Fact.id
  let toAdd := allFacts.filter fun f =>
    (state.processedFacts.find? (fun e => e.1 = f.id)).isNone
  let toRemove := state.processedFacts.filter fun e => ¬ e.1 ∈ currentIds
  let stAdd : AccStateE × List Fact :=
    match sp.retract, toRemove with
    | some ret, _ :: _ =>
        (toRemove.foldl
          (fun st e =>
            { accState := ret st.accState e.2,
              processedFacts := st.processedFacts.filter fun e2 => ¬ e2.1 = e.1 })
          state,
         toAdd)
    | none, _ :: _ =>
        ({ accState := sp.initial, processedFacts := [] }, toAdd ++ allFacts)
    | _, [] => (state, toAdd)
  let state := stAdd.2.foldl
    (fun st f =>
      { accState := sp.reduce st.accState f,
        processedFacts := msetEntry st.processedFacts f.id f })
    stAdd.1
  let result := sp.convert state.accState
  let outMs :=
    if sp.test result then
      [{ facts := allFacts, bindings := [], accumulatorResult := some result }]
    else []
  (outMs, some state)

/-- The compiled node network (`lib/nodes.js`, authoritative draft).  Each
variant carries its static configuration and its transient evaluation state
(the alpha cache `_cachedPartialMatches`, the incremental accumulator's
`stateMap`, which the source keys by the constant empty binding key, hence a
single `Option` slot).  Note that `AccumulatorNode`'s constructor
destructures only `{childNode, aggregator, accTest, initial, reduce,
retract, convert}` — the `varName` the compiler passes is dropped, so
accumulator variants store no variable name. -/
inductive Node where
  | alpha (ty : Val) (test : Payload → Bool) (varName : Option String)
      (cached : Option (List MatchE))
  | accSimple (child : Node) (aggregator : List Fact → Val) (accTest : Val → Bool)
  | accIncr (child : Node) (sp : IncrSpec) (stateMap : Option AccStateE)
  | logicalAll (children : List Node)
  | logicalAny (children : List Node)
  | logicalNot (child : Node)
  | logicalExists (child : Node)
  | betaTest (child : Node) (testFn : List Fact → List (String × Fact) → Bool)
  | noFact

/-- `AlphaNode.toPartialMatches` applied to one matched fact: a single-fact
match, binding the fact under `varName` when one is set. -/
def alphaMatchOf (varName : Option String) (f : Fact) : MatchE :=
  { facts := [f],
    bindings := match varName with | some v => [(v, f)] | none => [] }

/-- `LogicalAllNode`'s combination loop: start from the first child's
matches and fold `joinPartialMatches` over the remaining children, stopping
(`break`) as soon as the combination empties. -/
def allCombine : List (List MatchE) → List MatchE
  | [] => []
  | first :: rest =>
      rest.foldl
        (fun comb arr => if comb.isEmpty then comb else joinPartialMatches comb arr)
        first

mutual

/-- `evaluateAndGetPartialMatches` of every node variant, with the working
memory threaded through every read (the WMI component of the result is what
the evaluation hands back — the source only ever calls the read methods
`getByType`, `isTypeDirty`, `getDirtyTypesCurrentCycle` on it).  Returns the
partial matches, the node with its updated transient state, and the WMI.

The alpha variant mirrors `AlphaNode.evaluate`: when its type is not dirty
and a cached result exists, repopulate `matches` from the first fact of each
cached partial match; otherwise scan `getByType` filtering by `test`; then
rebuild partial matches from `matches` and overwrite the cache. -/
def evalNode : Node → WMI → List MatchE × Node × WMI
  | .alpha ty test varName cached, w =>
      let matched :=
        if ¬ (w.isTypeDirty ty) ∧ cached.isSome then
          (cached.getD []).foldl
            (fun ms pm =>
              match pm.facts.head? with
              | some f => setAdd ms f
              | none => ms)
            []
        else
          (w.getByType ty).foldl
            (fun ms f => if test f.data then setAdd ms f else ms) []
      let pms := matched.map (alphaMatchOf varName)
      (pms, .alpha ty test varName (some pms), w)
  | .accSimple child aggregator accTest, w =>
      let r := evalNode child w
      let allFacts := r.1.foldl (fun acc pm => acc ++ pm.facts) []
      (evaluateSimple aggregator accTest allFacts,
       .accSimple r.2.1 aggregator accTest, r.2.2)
  | .accIncr child sp stateMap, w =>
      let r := evalNode child w
      let allFacts := r.1.foldl (fun acc pm => acc ++ pm.facts) []
      let ms := evaluateIncremental sp stateMap allFacts
      (ms.1, .accIncr r.2.1 sp ms.2, r.2.2)
  | .logicalAll children, w =>
      let r := evalNodes children w
      if r.1.any List.isEmpty then ([], .logicalAll r.2.1, r.2.2)
      else (allCombine r.1, .logicalAll r.2.1, r.2.2)
  | .logicalAny children, w =>
      let r := evalNodes children w
      (r.1.foldl (· ++ ·) [], .logicalAny r.2.1, r.2.2)
  | .logicalNot child, w =>
      let r := evalNode child w
      (if r.1.isEmpty then [{ facts := [], bindings := [] }] else [],
       .logicalNot r.2.1, r.2.2)
  | .logicalExists child, w =>
      let r := evalNode child w
      (if r.1.isEmpty then [] else [{ facts := [], bindings := [] }],
       .logicalExists r.2.1, r.2.2)
  | .betaTest child testFn, w =>
      let r := evalNode child w
      (r.1.filter (fun pm => testFn pm.facts pm.bindings),
       .betaTest r.2.1 testFn, r.2.2)
  | .noFact, w => ([{ facts := [], bindings := [] }], .noFact, w)

/-- Evaluate a child list left to right (`children.map(c =>
c.evaluateAndGetPartialMatches())`), collecting each child's matches and
its updated state. -/
def evalNodes : List Node → WMI → List (List MatchE) × List Node × WMI
  | [], w => ([], [], w)
  | n :: ns, w =>
      let r := evalNode n w
      let rs := evalNodes ns r.2.2
      (r.1 :: rs.1, r.2.1 :: rs.2.1, rs.2.2)

end

/-! ### Claim C8: `updateFact` error handling -/

lemma mem_setAdd_self {α : Type} [DecidableEq α] (l : List α) (a : α) :
    a ∈ setAdd l a := by
  unfold setAdd
  split
  · assumption
  · simp

lemma allFacts_replaceFact (w : WMI) (old upd : Fact) :
    (w.replaceFact old upd).allFacts
      = w.allFacts.map (fun f => if f = old then upd else f) := by
  unfold WMI.replaceFact WMI.allFacts
  induction w.typeIndex with
  | nil => simp
  | cons kv rest ih => simp_all

lemma find?_id_map_replace (l : List Fact) (old upd : Fact)
    (h : l.find? (fun f => f.id = old.id) = some old) (hid : upd.id = old.id) :
    (l.map (fun f => if f = old then upd else f)).find? (fun f => f.id = old.id)
      = some upd := by
  induction l with
  | nil => simp at h
  | cons f rest ih =>
    by_cases hf : f.id = old.id
    · rw [List.find?_cons_of_pos _ (by simpa using hf)] at h
      have hfo : f = old := by injection h
      subst hfo
      simp only [List.map_cons, if_pos rfl]
      exact List.find?_cons_of_pos _ (by simpa using hid)
    · rw [List.find?_cons_of_neg _ (by simpa using hf)] at h
      have hne : ¬ f = old := fun he => hf (he ▸ rfl)
      simp only [List.map_cons, if_neg hne]
      rw [List.find?_cons_of_neg _ (by simpa using hf)]
      exact ih h

lemma alookup_assignKey_self (t : Payload) (k : String) (v : Val) :
    alookup k (mergeAssign.assignKey t k v) = some v := by
  induction t with
  | nil => simp [mergeAssign.assignKey, alookup]
  | cons kv rest ih =>
    by_cases hk : kv.1 = k
    · simp [mergeAssign.assignKey, hk, alookup]
    · simpa [mergeAssign.assignKey, hk, alookup] using ih

lemma alookup_assignKey_other (t : Payload) (k k2 : String) (v : Val)
    (hne : ¬ k2 = k) :
    alookup k (mergeAssign.assignKey t k2 v) = alookup k t := by
  induction t with
  | nil => simp [mergeAssign.assignKey, alookup, hne]
  | cons kv rest ih =>
    by_cases hk : kv.1 = k2
    · simp [mergeAssign.assignKey, hk, alookup, hne]
    · simp only [mergeAssign.assignKey, if_neg hk, alookup]
      rw [ih]

lemma alookup_mergeAssign_absent (t s : Payload) (k : String)
    (hs : alookup k s = none) :
    alookup k (mergeAssign t s) = alookup k t := by
  unfold mergeAssign
  induction s generalizing t with
  | nil => simp
  | cons kv rest ih =>
    simp only [alookup] at hs
    by_cases hk : kv.1 = k
    · simp [hk] at hs
    · simp only [List.foldl_cons]
      rw [ih _ (by simpa [hk] using hs)]
      exact alookup_assignKey_other t k kv.1 kv.2 hk

/-- The working memory produced by the success branch of `updateFact`,
written out (it is the `else` branch of `WMI.updateFact` verbatim). -/
def updSuccess (w : WMI) (fact : Fact) (newData : Payload) : WMI :=
  let upd : Fact := { fact with data := mergeAssign fact.data newData,
                                recency := w.versionCounter }
  let w1 := ({ w with versionCounter := w.versionCounter + 1 } : WMI).replaceFact fact upd
  { w1 with dirtyNext := setAdd w1.dirtyNext upd.type }

lemma updateFact_ok (w : WMI) (fact : Fact) (newData : Payload) (factId : Nat)
    (hfind : w.findFactById factId = some fact)
    (hty : ¬ (((alookup "type" newData).getD .vnull).truthy = true
        ∧ ¬ ((alookup "type" newData).getD .vnull) = fact.type)) :
    w.updateFact factId newData = .ok (updSuccess w fact newData) := by
  simp only [WMI.updateFact, hfind]
  rw [if_neg hty]
  rfl

/-- Claim C8, counterexample: on a working memory holding one fact of type
`"A"`, `updateFact` with the payload `{type: ""}` — a `type` field that
*differs* from the current type — is *not* rejected with `TypeImmutable`:
it succeeds, and afterwards the fact's payload `type` is `""`, so the
update did change the fact's type (the source's guard `newData.type &&
newData.type !== fact.data.type` skips every falsy `type` value). -/
theorem C8_counterexample :
    (((WMI.mk0.insertFact ⟨0, [("type", .str "A")], 0⟩).updateFact 0
        [("type", .str "")]).toOption.isSome = true)
    ∧ (((WMI.mk0.insertFact ⟨0, [("type", .str "A")], 0⟩).updateFact 0
        [("type", .str "")]).toOption.bind (fun w => w.findFactById 0)).map Fact.type
        = some (.str "") := by
  constructor
  · rfl
  · rfl

/-- Claim C8, amended: `updateFact(id, partialPayload)` fails with
`NotFound` when no fact has the id; fails with `TypeImmutable` when the
payload's `type` field is **truthy** and differs from the fact's current
type; otherwise it succeeds: the fact's payload is the shallow
`Object.assign` merge, its recency is the (strictly larger) version-counter
value, and the fact's (post-merge) type is marked dirty for the next cycle.
The stored type is unchanged whenever the payload has no `type` field — but
a *falsy* differing `type` value is merged and does change it, as the
counterexample shows. -/
theorem C8_updateFact_amended (w : WMI) (factId : Nat) (newData : Payload)
    (hrec : ∀ f ∈ w.allFacts, f.recency < w.versionCounter) :
    (w.findFactById factId = none →
      w.updateFact factId newData = .error .notFound)
    ∧ ∀ fact, w.findFactById factId = some fact →
        ((((alookup "type" newData).getD .vnull).truthy = true
            ∧ ¬ ((alookup "type" newData).getD .vnull) = fact.type) →
          w.updateFact factId newData = .error .typeImmutable)
        ∧ (¬ (((alookup "type" newData).getD .vnull).truthy = true
            ∧ ¬ ((alookup "type" newData).getD .vnull) = fact.type) →
          ∃ u, w.updateFact factId newData = .ok u
            ∧ u.findFactById factId
                = some { fact with data := mergeAssign fact.data newData,
                                   recency := w.versionCounter }
            ∧ fact.recency < w.versionCounter
            ∧ (Fact.type { fact with data := mergeAssign fact.data newData,
                                     recency := w.versionCounter }) ∈ u.dirtyNext
            ∧ (alookup "type" newData = none →
                (Fact.type { fact with data := mergeAssign fact.data newData,
                                       recency := w.versionCounter })
                  = fact.type)) := by
  constructor
  · intro hnone
    simp only [WMI.updateFact, hnone]
  · intro fact hfind
    have hid : fact.id = factId := by
      have := List.find?_some hfind
      simpa using this
    have hmem : fact ∈ w.allFacts := List.mem_of_find?_eq_some hfind
    constructor
    · intro hty
      simp only [WMI.updateFact, hfind]
      rw [if_pos hty]
    · intro hty
      refine ⟨updSuccess w fact newData,
        updateFact_ok w fact newData factId hfind hty, ?_, hrec fact hmem, ?_, ?_⟩
      · show WMI.findFactById _ factId = _
        unfold WMI.findFactById
        have hrepl := allFacts_replaceFact
          { w with versionCounter := w.versionCounter + 1 } fact
          { fact with data := mergeAssign fact.data newData,
                      recency := w.versionCounter }
        have hall :
            ({ w with versionCounter := w.versionCounter + 1 } : WMI).allFacts
              = w.allFacts := rfl
        rw [hall] at hrepl
        have hfind2 : w.allFacts.find? (fun f => f.id = fact.id) = some fact := by
          unfold WMI.findFactById at hfind
          rw [← hid] at hfind
          exact hfind
        have hres := find?_id_map_replace w.allFacts fact
          { fact with data := mergeAssign fact.data newData,
                      recency := w.versionCounter } hfind2 rfl
        show (WMI.replaceFact _ _ _).allFacts.find? _ = _
        rw [hrepl]
        rw [← hid]
        exact hres
      · exact mem_setAdd_self _ _
      · intro habs
        show Fact.type _ = Fact.type _
        unfold Fact.type
        rw [alookup_mergeAssign_absent fact.data newData "type" habs]

/-- Witness for `C8_updateFact_amended` at a concrete working memory with
one fact of type `"A"` and an update that merely merges a data field. -/
theorem C8_updateFact_amended_witness :
    (∀ f ∈ (WMI.mk0.insertFact ⟨0, [("type", .str "A")], 0⟩).allFacts,
        f.recency < (WMI.mk0.insertFact ⟨0, [("type", .str "A")], 0⟩).versionCounter)
    ∧ ((WMI.mk0.insertFact ⟨0, [("type", .str "A")], 0⟩).findFactById 7 = none →
        (WMI.mk0.insertFact ⟨0, [("type", .str "A")], 0⟩).updateFact 7
          [("x", .num 1)] = .error .notFound)
    ∧ ∀ fact, (WMI.mk0.insertFact ⟨0, [("type", .str "A")], 0⟩).findFactById 7
          = some fact →
        ((((alookup "type" [(("x" : String), Val.num 1)]).getD .vnull).truthy = true
            ∧ ¬ ((alookup "type" [(("x" : String), Val.num 1)]).getD .vnull) = fact.type) →
          (WMI.mk0.insertFact ⟨0, [("type", .str "A")], 0⟩).updateFact 7
            [("x", .num 1)] = .error .typeImmutable)
        ∧ (¬ (((alookup "type" [(("x" : String), Val.num 1)]).getD .vnull).truthy = true
            ∧ ¬ ((alookup "type" [(("x" : String), Val.num 1)]).getD .vnull) = fact.type) →
          ∃ u, (WMI.mk0.insertFact ⟨0, [("type", .str "A")], 0⟩).updateFact 7
              [("x", .num 1)] = .ok u
            ∧ u.findFactById 7
                = some { fact with data := mergeAssign fact.data [("x", .num 1)],
                                   recency := (WMI.mk0.insertFact ⟨0, [("type", .str "A")], 0⟩).versionCounter }
            ∧ fact.recency < (WMI.mk0.insertFact ⟨0, [("type", .str "A")], 0⟩).versionCounter
            ∧ (Fact.type { fact with data := mergeAssign fact.data [("x", .num 1)],
                                     recency := (WMI.mk0.insertFact ⟨0, [("type", .str "A")], 0⟩).versionCounter }) ∈ u.dirtyNext
            ∧ (alookup "type" [(("x" : String), Val.num 1)] = none →
                (Fact.type { fact with data := mergeAssign fact.data [("x", .num 1)],
                                       recency := (WMI.mk0.insertFact ⟨0, [("type", .str "A")], 0⟩).versionCounter })
                  = fact.type)) :=
  ⟨by decide, C8_updateFact_amended (WMI.mk0.insertFact ⟨0, [("type", .str "A")], 0⟩)
    7 [("x", .num 1)] (by decide)⟩

/-! ### Claim C7: unification correctness under LogicalAll -/

lemma alookup_append {β : Type} (k : String) (l1 l2 : List (String × β)) :
    alookup k (l1 ++ l2)
      = match alookup k l1 with
        | some v => some v
        | none => alookup k l2 := by
  induction l1 with
  | nil => simp [alookup]
  | cons kv rest ih =>
    by_cases hk : kv.1 = k
    · simp [alookup, hk]
    · simpa [alookup, hk] using ih

lemma alookup_eq_none_iff {β : Type} (k : String) (l : List (String × β)) :
    alookup k l = none ↔ k ∉ l.map Prod.fst := by
  induction l with
  | nil => simp [alookup]
  | cons kv rest ih =>
    by_cases hk : kv.1 = k
    · simp [alookup, hk]
    · simp [alookup, hk, ih, Ne.symm hk]

/-- One step of the `unifyBindings` fold. -/
def unifyStep (acc : Option (List (String × Fact))) (kv : String × Fact) :
    Option (List (String × Fact)) :=
  acc.bind fun u =>
    match alookup kv.1 u with
    | some v => if v = kv.2 then some u else none
    | none => some (u ++ [kv])

lemma unifyBindings_eq_foldl (pm1 pm2 : MatchE) :
    unifyBindings pm1 pm2 = pm2.bindings.foldl unifyStep (some pm1.bindings) := rfl

lemma foldl_unifyStep_none (l : List (String × Fact)) :
    l.foldl unifyStep none = none := by
  induction l with
  | nil => rfl
  | cons kv rest ih => simpa [unifyStep] using ih

lemma unifyStep_absent (acc : List (String × Fact)) (kv : String × Fact)
    (h : alookup kv.1 acc = none) : unifyStep (some acc) kv = some (acc ++ [kv]) := by
  simp [unifyStep, h]

lemma unifyStep_keep (acc : List (String × Fact)) (kv : String × Fact) (v : Fact)
    (h : alookup kv.1 acc = some v) (hv : v = kv.2) :
    unifyStep (some acc) kv = some acc := by
  simp [unifyStep, h, hv]

lemma unifyStep_conflict (acc : List (String × Fact)) (kv : String × Fact) (v : Fact)
    (h : alookup kv.1 acc = some v) (hv : ¬ v = kv.2) :
    unifyStep (some acc) kv = none := by
  simp [unifyStep, h, hv]

lemma foldl_unifyStep_preserves (l : List (String × Fact)) :
    ∀ acc u, l.foldl unifyStep (some acc) = some u →
      ∀ k, (alookup k acc).isSome = true → alookup k u = alookup k acc := by
  induction l with
  | nil =>
    intro acc u h k _
    injection h with h
    rw [h]
  | cons kv rest ih =>
    intro acc u h k hk
    rw [List.foldl_cons] at h
    rcases hcase : alookup kv.1 acc with _ | v
    · rw [unifyStep_absent acc kv hcase] at h
      have happ : alookup k (acc ++ [kv]) = alookup k acc := by
        rw [alookup_append]
        rcases hacc : alookup k acc with _ | w
        · rw [hacc] at hk
          simp at hk
        · rfl
      have := ih (acc ++ [kv]) u h k (by rw [happ]; exact hk)
      rw [happ] at this
      exact this
    · by_cases hv : v = kv.2
      · rw [unifyStep_keep acc kv v hcase hv] at h
        exact ih acc u h k hk
      · rw [unifyStep_conflict acc kv v hcase hv] at h
        rw [foldl_unifyStep_none] at h
        cases h

lemma foldl_unifyStep_insert (l : List (String × Fact)) :
    ∀ acc u k v, l.foldl unifyStep (some acc) = some u →
      alookup k acc = none → alookup k l = some v → alookup k u = some v := by
  induction l with
  | nil =>
    intro acc u k v _ _ hl
    simp [alookup] at hl
  | cons kv rest ih =>
    intro acc u k v h hacc hl
    rw [List.foldl_cons] at h
    by_cases hk : kv.1 = k
    · subst hk
      rw [unifyStep_absent acc kv hacc] at h
      simp only [alookup, if_pos rfl] at hl
      injection hl with hl
      subst hl
      have happ : alookup kv.1 (acc ++ [kv]) = some kv.2 := by
        rw [alookup_append, hacc]
        simp [alookup]
      have := foldl_unifyStep_preserves rest (acc ++ [kv]) u h kv.1
        (by rw [happ]; rfl)
      rw [happ] at this
      exact this
    · simp only [alookup, if_neg hk] at hl
      rcases hcase : alookup kv.1 acc with _ | w
      · rw [unifyStep_absent acc kv hcase] at h
        refine ih (acc ++ [kv]) u k v h ?_ hl
        rw [alookup_append, hacc]
        simp [alookup, hk]
      · by_cases hv : w = kv.2
        · rw [unifyStep_keep acc kv w hcase hv] at h
          exact ih acc u k v h hacc hl
        · rw [unifyStep_conflict acc kv w hcase hv] at h
          rw [foldl_unifyStep_none] at h
          cases h

lemma foldl_unifyStep_conflict (l : List (String × Fact)) :
    ∀ acc k v v2, alookup k acc = some v → (k, v2) ∈ l → ¬ v2 = v →
      l.foldl unifyStep (some acc) = none := by
  induction l with
  | nil =>
    intro acc k v v2 _ hmem
    simp at hmem
  | cons kv rest ih =>
    intro acc k v v2 hacc hmem hne
    rw [List.foldl_cons]
    rcases List.mem_cons.mp hmem with hkv | hkv
    · have hkv2 : kv = (k, v2) := hkv.symm
      subst hkv2
      rw [unifyStep_conflict acc (k, v2) v hacc (fun hv => hne hv.symm)]
      exact foldl_unifyStep_none rest
    · rcases hcase : alookup kv.1 acc with _ | w
      · rw [unifyStep_absent acc kv hcase]
        refine ih (acc ++ [kv]) k v v2 ?_ hkv hne
        rw [alookup_append, hacc]
      · by_cases hv : w = kv.2
        · rw [unifyStep_keep acc kv w hcase hv]
          exact ih acc k v v2 hacc hkv hne
        · rw [unifyStep_conflict acc kv w hcase hv]
          exact foldl_unifyStep_none rest

lemma foldl_unifyStep_nodup (l : List (String × Fact)) :
    ∀ acc u, l.foldl unifyStep (some acc) = some u →
      (acc.map Prod.fst).Nodup → (u.map Prod.fst).Nodup := by
  induction l with
  | nil =>
    intro acc u h hn
    injection h with h
    rw [← h]
    exact hn
  | cons kv rest ih =>
    intro acc u h hn
    rw [List.foldl_cons] at h
    rcases hcase : alookup kv.1 acc with _ | w
    · rw [unifyStep_absent acc kv hcase] at h
      refine ih (acc ++ [kv]) u h ?_
      have hnotin : kv.1 ∉ acc.map Prod.fst := (alookup_eq_none_iff _ _).mp hcase
      simpa using List.Nodup.append hn (by simp) (by simpa using hnotin)
    · by_cases hv : w = kv.2
      · rw [unifyStep_keep acc kv w hcase hv] at h
        exact ih acc u h hn
      · rw [unifyStep_conflict acc kv w hcase hv] at h
        rw [foldl_unifyStep_none] at h
        cases h

lemma mem_joinPartialMatches {L R : List MatchE} {m : MatchE}
    (hm : m ∈ joinPartialMatches L R) :
    ∃ l ∈ L, ∃ r ∈ R, m.facts = l.facts ++ r.facts
      ∧ unifyBindings l r = some m.bindings := by
  unfold joinPartialMatches at hm
  rw [List.mem_flatMap] at hm
  obtain ⟨l, hl, hm⟩ := hm
  rw [List.mem_filterMap] at hm
  obtain ⟨r, hr, hm⟩ := hm
  rcases hu : unifyBindings l r with _ | u
  · rw [hu] at hm
    cases hm
  · rw [hu] at hm
    injection hm with hm
    exact ⟨l, hl, r, hr, by rw [← hm], by rw [hu, ← hm]⟩

/-- Binding well-formedness of a partial match: its bindings, read as a JS
object, have no duplicated keys. -/
def MatchE.WFB (m : MatchE) : Prop := (m.bindings.map Prod.fst).Nodup

lemma joinPartialMatches_wfb {L R : List MatchE}
    (hL : ∀ m ∈ L, m.WFB) (m : MatchE)
    (hm : m ∈ joinPartialMatches L R) : m.WFB := by
  obtain ⟨l, hl, r, hr, _, hu⟩ := mem_joinPartialMatches hm
  exact foldl_unifyStep_nodup r.bindings l.bindings m.bindings hu (hL l hl)

lemma foldl_join_wfb (rest : List (List MatchE)) :
    ∀ first, (∀ m ∈ first, m.WFB) →
      ∀ m ∈ rest.foldl
        (fun comb arr => if comb.isEmpty then comb else joinPartialMatches comb arr)
        first, m.WFB := by
  induction rest with
  | nil =>
    intro first hf m hm
    exact hf m hm
  | cons arr rest ih =>
    intro first hf m hm
    rw [List.foldl_cons] at hm
    by_cases hemp : first.isEmpty
    · rw [if_pos hemp] at hm
      exact ih first hf m hm
    · rw [if_neg hemp] at hm
      exact ih _ (fun x hx => joinPartialMatches_wfb hf x hx) m hm

lemma allCombine_wfb (arrs : List (List MatchE))
    (h : ∀ arr ∈ arrs, ∀ m ∈ arr, m.WFB) : ∀ m ∈ allCombine arrs, m.WFB := by
  cases arrs with
  | nil =>
    intro m hm
    cases hm
  | cons first rest =>
    exact foldl_join_wfb rest first (h first (List.mem_cons_self _ _))

lemma foldl_append_eq {α : Type} (arrs : List (List α)) :
    ∀ acc : List α, arrs.foldl (· ++ ·) acc = acc ++ arrs.flatten := by
  induction arrs with
  | nil => intro acc; simp
  | cons arr rest ih =>
    intro acc
    rw [List.foldl_cons, ih, List.flatten_cons, List.append_assoc]

mutual

/-- Every partial match any node emits has duplicate-free binding keys. -/
theorem evalNode_wfb : ∀ (n : Node) (w : WMI), ∀ m ∈ (evalNode n w).1, m.WFB
  | .alpha ty test varName cached, w => by
    intro m hm
    simp only [evalNode] at hm
    rw [List.mem_map] at hm
    obtain ⟨f, _, hf⟩ := hm
    rcases varName with _ | v
    · rw [← hf]
      simp [alphaMatchOf, MatchE.WFB]
    · rw [← hf]
      simp [alphaMatchOf, MatchE.WFB]
  | .accSimple child aggregator accTest, w => by
    intro m hm
    simp only [evalNode, evaluateSimple] at hm
    split at hm
    · rw [List.mem_singleton] at hm
      rw [hm]
      simp [MatchE.WFB]
    · cases hm
  | .accIncr child sp stateMap, w => by
    intro m hm
    simp only [evalNode, evaluateIncremental] at hm
    split at hm
    · rw [List.mem_singleton] at hm
      rw [hm]
      simp [MatchE.WFB]
    · cases hm
  | .logicalAll children, w => by
    intro m hm
    have hall := evalNodes_wfb children w
    simp only [evalNode] at hm
    split at hm
    · cases hm
    · exact allCombine_wfb _ (fun arr ha => hall arr ha) m hm
  | .logicalAny children, w => by
    intro m hm
    have hall := evalNodes_wfb children w
    simp only [evalNode] at hm
    have hm2 : m ∈ (evalNodes children w).1.foldl (· ++ ·) [] := hm
    rw [foldl_append_eq, List.nil_append] at hm2
    obtain ⟨arr, harr, hm3⟩ := List.mem_flatten.mp hm2
    exact hall arr harr m hm3
  | .logicalNot child, w => by
    intro m hm
    simp only [evalNode] at hm
    split at hm
    · rw [List.mem_singleton] at hm
      rw [hm]
      simp [MatchE.WFB]
    · cases hm
  | .logicalExists child, w => by
    intro m hm
    simp only [evalNode] at hm
    split at hm
    · cases hm
    · rw [List.mem_singleton] at hm
      rw [hm]
      simp [MatchE.WFB]
  | .betaTest child testFn, w => by
    intro m hm
    simp only [evalNode] at hm
    exact evalNode_wfb child w m (List.mem_of_mem_filter hm)
  | .noFact, w => by
    intro m hm
    simp only [evalNode] at hm
    rw [List.mem_singleton] at hm
    rw [hm]
    simp [MatchE.WFB]

/-- Child-list version of `evalNode_wfb`. -/
theorem evalNodes_wfb : ∀ (ns : List Node) (w : WMI),
    ∀ arr ∈ (evalNodes ns w).1, ∀ m ∈ arr, m.WFB
  | [], _ => by
    intro arr harr
    simp only [evalNodes] at harr
    cases harr
  | n :: ns, w => by
    intro arr harr
    simp only [evalNodes] at harr
    rcases List.mem_cons.mp harr with h | h
    · rw [h]
      exact evalNode_wfb n w
    · exact evalNodes_wfb ns _ arr h

end

lemma nodup_alist_functional : ∀ {l : List (String × Fact)},
    (l.map Prod.fst).Nodup → ∀ {k : String} {v v2 : Fact},
    (k, v) ∈ l → (k, v2) ∈ l → v = v2 := by
  intro l
  induction l with
  | nil =>
    intro _ k v v2 h1
    cases h1
  | cons kv rest ih =>
    intro hw k v v2 h1 h2
    rw [List.map_cons, List.nodup_cons] at hw
    rcases List.mem_cons.mp h1 with ha | ha <;> rcases List.mem_cons.mp h2 with hb | hb
    · rw [← hb] at ha
      simpa using ha
    · exfalso
      apply hw.1
      rw [← ha]
      have hmem : ((k, v2)).1 ∈ rest.map Prod.fst := List.mem_map_of_mem Prod.fst hb
      exact hmem
    · exfalso
      apply hw.1
      rw [← hb]
      have hmem : ((k, v)).1 ∈ rest.map Prod.fst := List.mem_map_of_mem Prod.fst ha
      exact hmem
    · exact ih hw.2 ha hb

lemma wfb_functional {m : MatchE} (hw : m.WFB) {k : String} {v v2 : Fact}
    (h1 : (k, v) ∈ m.bindings) (h2 : (k, v2) ∈ m.bindings) : v = v2 :=
  nodup_alist_functional hw h1 h2

/-- Claim C7: the join/unify contract.  (1) A successful unification keeps
every binding of the left match and inserts each right-match key that is
absent on the left (first occurrence); (2) a key bound on both sides to
different facts makes the join fail; (3) every match a join produces comes
from a left/right pair, its fact list being left facts followed by right
facts with the unified bindings; (4) consequently no match produced by a
`LogicalAll` node binds one variable name to two distinct facts. -/
theorem C7_unification :
    (∀ pm1 pm2 : MatchE, ∀ u, unifyBindings pm1 pm2 = some u →
      (∀ k, (alookup k pm1.bindings).isSome = true →
          alookup k u = alookup k pm1.bindings)
      ∧ (∀ k v, alookup k pm1.bindings = none →
          alookup k pm2.bindings = some v → alookup k u = some v))
    ∧ (∀ pm1 pm2 : MatchE, ∀ k v v2, alookup k pm1.bindings = some v →
        (k, v2) ∈ pm2.bindings → ¬ v2 = v → unifyBindings pm1 pm2 = none)
    ∧ (∀ L R : List MatchE, ∀ m ∈ joinPartialMatches L R,
        ∃ l ∈ L, ∃ r ∈ R, m.facts = l.facts ++ r.facts
          ∧ unifyBindings l r = some m.bindings)
    ∧ (∀ (children : List Node) (w : WMI),
        ∀ m ∈ (evalNode (.logicalAll children) w).1,
        ∀ k (v v2 : Fact), (k, v) ∈ m.bindings → (k, v2) ∈ m.bindings → v = v2) := by
  refine ⟨?_, ?_, ?_, ?_⟩
  · intro pm1 pm2 u hu
    rw [unifyBindings_eq_foldl] at hu
    exact ⟨foldl_unifyStep_preserves pm2.bindings pm1.bindings u hu,
      fun k v hn hs => foldl_unifyStep_insert pm2.bindings pm1.bindings u k v hu hn hs⟩
  · intro pm1 pm2 k v v2 hv hmem hne
    rw [unifyBindings_eq_foldl]
    exact foldl_unifyStep_conflict pm2.bindings pm1.bindings k v v2 hv hmem hne
  · intro L R m hm
    exact mem_joinPartialMatches hm
  · intro children w m hm k v v2 h1 h2
    exact wfb_functional (evalNode_wfb (.logicalAll children) w m hm) h1 h2

/-- Witness for `C7_unification`: two one-binding matches over distinct
variables unify, and the right binding is inserted. -/
theorem C7_unification_witness :
    alookup "y" [("x", (⟨0, [("type", .str "T")], 1⟩ : Fact)),
                 ("y", (⟨1, [("type", .str "U")], 2⟩ : Fact))]
      = some (⟨1, [("type", .str "U")], 2⟩ : Fact) :=
  (C7_unification.1
    { facts := [⟨0, [("type", .str "T")], 1⟩],
      bindings := [("x", ⟨0, [("type", .str "T")], 1⟩)] }
    { facts := [⟨1, [("type", .str "U")], 2⟩],
      bindings := [("y", ⟨1, [("type", .str "U")], 2⟩)] }
    [("x", ⟨0, [("type", .str "T")], 1⟩), ("y", ⟨1, [("type", .str "U")], 2⟩)]
    (by decide)).2 "y" ⟨1, [("type", .str "U")], 2⟩ (by decide) (by decide)

/-! ### The condition DSL and the compiler (`compileConditions`) -/

/-- A host-supplied JS test function.  The same DSL field `test` is called
with one argument (`test(fact.data)`) by alpha nodes and with two
(`test(facts, bindings)`) by beta-test nodes; a JS closure supports both
call shapes, so the model carries both behaviours. -/
structure JsFn where
  alphaCall : Payload → Bool
  betaCall : List Fact → List (String × Fact) → Bool

/-- The `accumulate` bundle of an atomic condition.  `initial` is the value
returned by the `initial()` thunk when that field is present. -/
structure AccDSL where
  aggregator : Option (List Fact → Val)
  accTest : Val → Bool
  initial : Option Val
  reduce : Option (Val → Fact → Val)
  retract : Option (Val → Fact → Val)
  convert : Option (Val → Val)

/-- A DSL condition object: the eight fields the compiler inspects
(`type`, `test`, `var`, `accumulate`, `all`, `any`, `not`, `exists`);
`none` models an absent field. -/
inductive Cond where
  | mk (type : Option String) (test : Option JsFn) (varName : Option String)
       (accumulate : Option AccDSL)
       (allC : Option (List Cond)) (anyC : Option (List Cond))
       (notC : Option Cond) (existsC : Option Cond)

/-- The empty condition object `{}`. -/
def emptyCond : Cond := .mk none none none none none none none none

/-- What a recursive `compileConditions` call hands back when it returns a
value: a compiled node, or the `{betaTest}` marker used for beta tests
embedded in a composite. -/
inductive CompileRes where
  | node (n : Node)
  | betaMarker (fn : List Fact → List (String × Fact) → Bool)

/-- `AlphaNode`'s constructor default `test || (() => true)`. -/
def alphaTestOf (test : Option JsFn) : Payload → Bool :=
  match test with
  | some fn => fn.alphaCall
  | none => fun _ => true

mutual

/-- `compileConditions(conditions, inComposite, referencedTypes,
hasNegation)` from the authoritative compiler draft; the two mutated
accumulators (`referencedTypes`, `hasNegation.value`) are threaded through
the result.  `ok none` models the source returning `undefined` (a condition
with no `test`, no composite and no `type` falls off the end of the
function).  One modelled shortcut: when a `not`/`exists` child or a
composite child compiles to `undefined` or to a beta-test marker, the
source seats a non-node in the tree and the TypeError only surfaces at
initialization or evaluation; the embedding surfaces the same TypeError
here, because no behaviour before that throw is observable. -/
def compileConditions (c : Cond) (inComposite : Bool) (refTypes : List Val)
    (hasNeg : Bool) : Except JsError (Option CompileRes × List Val × Bool) :=
  match c with
  | .mk type test varName accumulate allC anyC notC existsC =>
    let hasType := type.isSome
    let hasComposite := allC.isSome || anyC.isSome || notC.isSome || existsC.isSome
    let hasTest := test.isSome
    if hasType ∧ hasComposite then
      .error (.invalidDSL "A condition cannot have both type and composite fields")
    else if hasComposite ∧ hasTest then
      .error (.invalidDSL "A condition cannot have both test and composite fields")
    else if hasType ∧ hasTest ∧ hasComposite then
      .error (.invalidDSL "A condition cannot have type, test, and composite fields")
    else if hasTest ∧ ¬hasType ∧ ¬hasComposite then
      match test with
      | some fn =>
          if inComposite then .ok (some (.betaMarker fn.betaCall), refTypes, hasNeg)
          else .ok (some (.node (.betaTest .noFact fn.betaCall)), refTypes, hasNeg)
      | none => .error .typeError
    else
      match allC with
      | some subs => compileLogicalNode subs true refTypes hasNeg
      | none =>
      match anyC with
      | some subs => compileLogicalNode subs false refTypes hasNeg
      | none =>
      match notC with
      | some c2 =>
          match compileConditions c2 true refTypes true with
          | .error e => .error e
          | .ok (some (.node n), refTypes2, hasNeg2) =>
              .ok (some (.node (.logicalNot n)), refTypes2, hasNeg2)
          | .ok _ => .error .typeError
      | none =>
      match existsC with
      | some c2 =>
          match compileConditions c2 true refTypes hasNeg with
          | .error e => .error e
          | .ok (some (.node n), refTypes2, hasNeg2) =>
              .ok (some (.node (.logicalExists n)), refTypes2, hasNeg2)
          | .ok _ => .error .typeError
      | none =>
      match type with
      | some ty =>
          let refTypes2 := setAdd refTypes (.str ty)
          match accumulate with
          | some acc =>
              match acc.initial, acc.reduce with
              | some i, some r =>
                  .ok (some (.node (.accIncr
                    (.alpha (.str ty) (alphaTestOf test) none none)
                    { initial := i, reduce := r, retract := acc.retract,
                      convert := acc.convert.getD (fun s => s),
                      test := acc.accTest } none)), refTypes2, hasNeg)
              | _, _ =>
                  .ok (some (.node (.accSimple
                    (.alpha (.str ty) (alphaTestOf test) none none)
                    (acc.aggregator.getD (fun _ => .vnull)) acc.accTest)),
                    refTypes2, hasNeg)
          | none =>
              .ok (some (.node (.alpha (.str ty) (alphaTestOf test) varName none)),
                refTypes2, hasNeg)
      | none => .ok (none, refTypes, hasNeg)

/-- `compileLogicalNode(subConditions, operatorType, ...)`: compile each
child, routing beta-test markers into `betaTests` and nodes into
`alphaAndLogicalNodes`; combine (a lone `NoFactNode` when only beta tests
exist, pass-through for a single node, else `LogicalAll`/`LogicalAny`);
then wrap the combined node in `BetaTestNode`s, one per collected beta
test, in order. -/
def compileLogicalNode (subs : List Cond) (isAll : Bool) (refTypes : List Val)
    (hasNeg : Bool) : Except JsError (Option CompileRes × List Val × Bool) :=
  match compileChildren subs refTypes hasNeg with
  | .error e => .error e
  | .ok (nodes, betaTests, refTypes2, hasNeg2) =>
      let combined : Node :=
        match nodes with
        | [] => .noFact
        | [n] => n
        | _ => if isAll then .logicalAll nodes else .logicalAny nodes
      .ok (some (.node (betaTests.foldl (fun n fn => .betaTest n fn) combined)),
        refTypes2, hasNeg2)

/-- The child-compilation loop of `compileLogicalNode`, returning the
accumulated node list and beta-test list in encounter order. -/
def compileChildren (subs : List Cond) (refTypes : List Val) (hasNeg : Bool) :
    Except JsError (List Node × List (List Fact → List (String × Fact) → Bool)
      × List Val × Bool) :=
  match subs with
  | [] => .ok ([], [], refTypes, hasNeg)
  | c :: rest =>
      match compileConditions c true refTypes hasNeg with
      | .error e => .error e
      | .ok (res, refTypes2, hasNeg2) =>
          match compileChildren rest refTypes2 hasNeg2 with
          | .error e => .error e
          | .ok (nodes, betas, refTypes3, hasNeg3) =>
              match res with
              | some (.betaMarker fn) => .ok (nodes, fn :: betas, refTypes3, hasNeg3)
              | some (.node n) => .ok (n :: nodes, betas, refTypes3, hasNeg3)
              | none => .error .typeError

end

/-- `initializeNodesWithWMI(rootNode, wmi)`: `if (rootNode.setWMI)
rootNode.setWMI(wmi)`.  Reading `.setWMI` of `undefined` throws a TypeError;
a beta-marker object has no `setWMI`, so the guard skips it; a real node
tree injects the WMI (in this embedding the WMI is instead passed to every
evaluation, so the success case carries no state). -/
def initializeNodesWithWMI : Option CompileRes → WMI → Except JsError Unit
  | none, _ => .error .typeError
  | some (.betaMarker _), _ => .ok ()
  | some (.node _), _ => .ok ()

/-! ### The engine (`lib/rules-engine.js`, authoritative draft) -/

/-- Insert an element into a sorted list, before the first element it is
`le`-related to (so insertion from the right is stable). -/
def insertSorted {α : Type} (le : α → α → Bool) (x : α) : List α → List α
  | [] => [x]
  | y :: ys => if le x y then x :: y :: ys else y :: insertSorted le x ys

/-- A stable comparison sort, modelling `Array.prototype.sort` (stable per
the ECMAScript specification): elements the comparator ties keep their
original relative order. -/
def stableSort {α : Type} (le : α → α → Bool) (l : List α) : List α :=
  l.foldr (insertSorted le) []

/-- A working-memory mutation an action performs through the engine handle
(`addFact` / `updateFact` / `removeFact`). -/
inductive WMOp where
  | add (data : Payload)
  | update (factId : Nat) (data : Payload)
  | remove (factId : Nat)

/-- A compiled production rule as the engine stores it: name, salience
(defaulted to 0), the compiled root node, the referenced-types set and
negation flag collected during compilation, and the action.  Actions are
modelled as pure functions from the match to the list of engine-handle
mutations they perform. -/
structure MRule where
  name : String
  salience : Int
  rootNode : Node
  refTypes : List Val
  hasNeg : Bool
  action : List Fact → List (String × Fact) → List WMOp

/-- The engine's mutable state: working memory, rule list (each rule
holding its network's transient state), the refraction set `firedHistory`,
and the process-wide `Fact.idCounter`. -/
structure EngState where
  wmi : WMI
  rules : List MRule
  firedHistory : List String
  idCounter : Nat

/-- `engine.addFact(factData)`: the `Fact` constructor throws when
`data.type` is falsy (`MissingType`); otherwise the fact gets the next id
and is inserted (which stamps its recency and dirties its type). -/
def engineAddFact (st : EngState) (data : Payload) : Except JsError EngState :=
  if ¬ ((alookup "type" data).getD .vnull).truthy then .error .missingType
  else .ok { st with wmi := st.wmi.insertFact ⟨st.idCounter, data, 0⟩,
                     idCounter := st.idCounter + 1 }

/-- Apply one engine-handle mutation. -/
def applyWMOp (st : EngState) : WMOp → Except JsError EngState
  | .add data => engineAddFact st data
  | .update factId data =>
      (st.wmi.updateFact factId data).map fun w => { st with wmi := w }
  | .remove factId =>
      (st.wmi.removeFact factId).map fun w => { st with wmi := w }

/-- Apply a list of mutations in order; on a throw, keep the state the
earlier mutations built (JS exceptions do not roll anything back) and
report the error. -/
def applyWMOps : EngState → List WMOp → EngState × Option JsError
  | st, [] => (st, none)
  | st, op :: rest =>
      match applyWMOp st op with
      | .error e => (st, some e)
      | .ok st2 => applyWMOps st2 rest

/-- `engine.addRule(ruleDef)`: compile the conditions (fresh
`referencedTypes` set and `hasNegation` flag), inject working memory, stamp
salience (0 unless a number was given), attach the bookkeeping and append
the rule.  A condition tree that compiles to `undefined` makes
`initializeNodesWithWMI` throw the generic TypeError. -/
def addRule (st : EngState) (name : String) (salience : Option Int)
    (conds : Cond) (action : List Fact → List (String × Fact) → List WMOp) :
    Except JsError (EngState × MRule) :=
  match compileConditions conds false [] false with
  | .error e => .error e
  | .ok (res, refTypes, hasNeg) =>
      match initializeNodesWithWMI res st.wmi with
      | .error e => .error e
      | .ok () =>
          match res with
          | some (.node n) =>
              let rule : MRule := ⟨name, salience.getD 0, n, refTypes, hasNeg, action⟩
              .ok ({ st with rules := st.rules ++ [rule] }, rule)
          | _ => .error .typeError

/-- `buildMatchSignature(ruleName, match)`: the rule name, `"::"`, and the
match's fact ids rendered as strings, sorted by JavaScript's default
(lexicographic string) sort and comma-joined. -/
def buildMatchSignature (ruleName : String) (m : MatchE) : String :=
  ruleName ++ "::" ++
    String.intercalate ","
      (stableSort (fun s1 s2 => decide (s1 ≤ s2)) (m.facts.map (fun f => toString f.id)))

/-- An agenda entry: `{rule, match, signature, salience, matchRecency}`
(the rule is represented by the fields firing needs).  `matchRecency` is a
JS number: `none` models the `-Infinity` that `Math.max()` of an empty
list returns. -/
structure AgendaEntry where
  ruleName : String
  action : List Fact → List (String × Fact) → List WMOp
  pmatch : MatchE
  signature : String
  salience : Int
  matchRecency : Option Nat

/-- `collectMatches(skipCleanAlpha)` over the rule list, threading each
rule's updated network state and the working memory.  A rule with an empty
`referencedTypes` set is always evaluated and its `matchRecency` guards the
empty-facts case with 0; a rule with negation is always evaluated; any
other rule is skipped when no referenced type is in the current dirty set;
the evaluated branch computes `Math.max(...recencies)` with **no**
empty-facts guard. -/
def collectMatchesRules : Bool → List MRule → WMI → List AgendaEntry × List MRule × WMI
  | _, [], w => ([], [], w)
  | skip, rule :: rest, w =>
      if rule.refTypes.isEmpty then
        let r := evalNode rule.rootNode w
        let entries := r.1.map fun m =>
          { ruleName := rule.name, action := rule.action, pmatch := m,
            signature := buildMatchSignature rule.name m,
            salience := rule.salience,
            matchRecency :=
              if 0 < m.facts.length then (m.facts.map Fact.recency).max?
              else some 0 }
        let rs := collectMatchesRules skip rest r.2.2
        (entries ++ rs.1, { rule with rootNode := r.2.1 } :: rs.2.1, rs.2.2)
      else if skip ∧ ¬ rule.hasNeg
          ∧ ¬ (w.getDirtyTypesCurrentCycle.any fun dt => dt ∈ rule.refTypes) then
        let rs := collectMatchesRules skip rest w
        (rs.1, rule :: rs.2.1, rs.2.2)
      else
        let r := evalNode rule.rootNode w
        let entries := r.1.map fun m =>
          { ruleName := rule.name, action := rule.action, pmatch := m,
            signature := buildMatchSignature rule.name m,
            salience := rule.salience,
            matchRecency := (m.facts.map Fact.recency).max? }
        let rs := collectMatchesRules skip rest r.2.2
        (entries ++ rs.1, { rule with rootNode := r.2.1 } :: rs.2.1, rs.2.2)

/-- Engine-level `collectMatches`. -/
def collectMatches (st : EngState) (skip : Bool) : List AgendaEntry × EngState :=
  let r := collectMatchesRules skip st.rules st.wmi
  (r.1, { st with rules := r.2.1, wmi := r.2.2 })

/-- The sort comparator of `defaultConflictResolver` as a three-way
ordering (`.lt` means the first entry fires earlier): salience descending;
then `matchRecency` descending computed as the JS subtraction
`b.matchRecency - a.matchRecency`, where two `-Infinity` values produce
`NaN`, which `Array.prototype.sort` treats as 0 — so two empty-recency
entries compare *equal* and never reach the signature tie-break; finally
`signature` ascending (the source uses `localeCompare`; the model compares
code points). -/
def agendaCmp (a b : AgendaEntry) : Ordering :=
  if a.salience < b.salience then .gt
  else if b.salience < a.salience then .lt
  else
    match a.matchRecency, b.matchRecency with
    | none, none => .eq
    | none, some _ => .gt
    | some _, none => .lt
    | some ra, some rb =>
        if ra < rb then .gt
        else if rb < ra then .lt
        else compare a.signature b.signature

/-- `defaultConflictResolver`: drop refracted entries, then sort (stably,
as `Array.prototype.sort` is) by the comparator. -/
def defaultConflictResolver (fired : List String) (agenda : List AgendaEntry) :
    List AgendaEntry :=
  stableSort (fun a b => agendaCmp a b != Ordering.gt)
    (agenda.filter fun a => ¬ a.signature ∈ fired)

/-- The outcome of `fireMatches`: the signatures fired (in firing order,
one per action invocation), the resulting state, the `somethingFired`
flag, and the error of a throwing action, if any. -/
structure FireResult where
  events : List String
  state : EngState
  somethingFired : Bool
  err : Option JsError

/-- `fireMatches(resolvedAgenda)`: invoke each entry's action (recording
the firing), then add its signature to `firedHistory` and set
`somethingFired`.  A throwing action leaves its signature unrecorded and
propagates (the already-applied mutations and already-recorded signatures
stay). -/
def fireMatches (st : EngState) : List AgendaEntry → FireResult
  | [] => ⟨[], st, false, none⟩
  | e :: rest =>
      let a := applyWMOps st (e.action e.pmatch.facts e.pmatch.bindings)
      match a.2 with
      | some err => ⟨[e.signature], a.1, false, some err⟩
      | none =>
          let st2 := { a.1 with firedHistory := setAdd a.1.firedHistory e.signature }
          let r := fireMatches st2 rest
          ⟨e.signature :: r.events, r.state, true, r.err⟩

/-- How the `run()` loop was left. -/
inductive ExitKind where
  | emptyAgenda
  | nothingFired
  | guardExit
  | actionError
deriving DecidableEq

/-- The outcome of the `run()` loop: fired signatures in order, final
state, exit kind, and the number of completed cycles (`cycleCount`). -/
structure RunOut where
  events : List String
  state : EngState
  exit : ExitKind
  cycles : Nat

/-- The `while (cycleCount < maxCycles)` loop of `run()`, with the
remaining iteration budget as fuel: promote the dirty types, collect the
agenda (skipping clean rules), break when it is empty; otherwise count the
cycle, resolve with the default resolver, fire; break when an action threw
or when nothing fired; clear the current dirty set and continue. -/
def runLoop (skip : Bool) : EngState → Nat → RunOut
  | st, 0 => ⟨[], st, .guardExit, 0⟩
  | st, fuel + 1 =>
      let st1 := { st with wmi := st.wmi.promoteNextCycleDirty }
      let c := collectMatches st1 skip
      if c.1.isEmpty then ⟨[], c.2, .emptyAgenda, 0⟩
      else
        let resolved := defaultConflictResolver c.2.firedHistory c.1
        let f := fireMatches c.2 resolved
        match f.err with
        | some _ => ⟨f.events, f.state, .actionError, 1⟩
        | none =>
            if ¬ f.somethingFired then ⟨f.events, f.state, .nothingFired, 1⟩
            else
              let st2 := { f.state with wmi := f.state.wmi.clearDirtyCurrentCycle }
              let r := runLoop skip st2 fuel
              ⟨f.events ++ r.events, r.state, r.exit, r.cycles + 1⟩

/-- The outcome of `run()`: the loop outcome plus whether the final
`cycleCount >= maxCycles` check raised `MaxCyclesExceeded` (a throwing
action propagates first and skips that check). -/
structure RunResult where
  events : List String
  state : EngState
  exit : ExitKind
  cycles : Nat
  raised : Bool

/-- `run()`: reset the cycle count, loop, then raise `MaxCyclesExceeded`
iff the loop consumed the whole budget. -/
def run (st : EngState) (maxCycles : Nat) : RunResult :=
  let r := runLoop true st maxCycles
  ⟨r.events, r.state, r.exit, r.cycles,
    (r.exit != .actionError) && (maxCycles ≤ r.cycles)⟩

/-- One step of an engine's lifetime between construction and death:
either the host mutates facts through the engine handle, or it calls
`run()` (with the engine's configured `maxCycles`). -/
inductive SessionStep where
  | mutate (ops : List WMOp)
  | runStep

/-- A whole engine lifetime: fold the steps, concatenating every `run()`'s
fired signatures.  A host-level mutation that throws leaves the earlier
mutations applied (the engine keeps running). -/
def session (maxCycles : Nat) : EngState → List SessionStep → List String × EngState
  | st, [] => ([], st)
  | st, .mutate ops :: rest => session maxCycles (applyWMOps st ops).1 rest
  | st, .runStep :: rest =>
      let r := run st maxCycles
      let s := session maxCycles r.state rest
      (r.events ++ s.1, s.2)

/-! ### Claim C10: building the agenda never mutates working memory -/

mutual

/-- Node evaluation hands back the very working memory it was given: the
source only calls the read methods. -/
theorem evalNode_wmi : ∀ (n : Node) (w : WMI), (evalNode n w).2.2 = w
  | .alpha _ _ _ _, _ => rfl
  | .accSimple child _ _, w => evalNode_wmi child w
  | .accIncr child _ _, w => evalNode_wmi child w
  | .logicalAll children, w => by
    simp only [evalNode]
    split
    · exact evalNodes_wmi children w
    · exact evalNodes_wmi children w
  | .logicalAny children, w => evalNodes_wmi children w
  | .logicalNot child, w => evalNode_wmi child w
  | .logicalExists child, w => evalNode_wmi child w
  | .betaTest child _, w => evalNode_wmi child w
  | .noFact, _ => rfl

/-- List version of `evalNode_wmi`. -/
theorem evalNodes_wmi : ∀ (ns : List Node) (w : WMI), (evalNodes ns w).2.2 = w
  | [], _ => rfl
  | n :: ns, w => by
    simp only [evalNodes]
    rw [evalNode_wmi n w]
    exact evalNodes_wmi ns w

end

lemma collectMatchesRules_wmi (rules : List MRule) :
    ∀ (skip : Bool) (w : WMI), (collectMatchesRules skip rules w).2.2 = w := by
  induction rules with
  | nil =>
    intro skip w
    rfl
  | cons rule rest ih =>
    intro skip w
    simp only [collectMatchesRules]
    split
    · rw [evalNode_wmi rule.rootNode w]
      exact ih skip w
    · split
      · exact ih skip w
      · rw [evalNode_wmi rule.rootNode w]
        exact ih skip w

/-- Claim C10: for every engine state and either value of the skip flag,
`collectMatches` (evaluating the rule networks and building the agenda)
returns the working memory exactly as it was — same type buckets, same
facts (ids, payloads, recencies), same version counter, and both dirty
sets untouched — and it also leaves `firedHistory` and the fact-id counter
alone; only fired actions mutate those through the engine handle. -/
theorem C10_collectMatches_frame (st : EngState) (skip : Bool) :
    (collectMatches st skip).2.wmi = st.wmi
    ∧ (collectMatches st skip).2.firedHistory = st.firedHistory
    ∧ (collectMatches st skip).2.idCounter = st.idCounter := by
  refine ⟨?_, rfl, rfl⟩
  show (collectMatchesRules skip st.rules st.wmi).2.2 = st.wmi
  exact collectMatchesRules_wmi st.rules skip st.wmi

/-! ### Claim C5: `matchRecency` of empty-fact matches -/

/-- The compiled network of `{exists: {type: "T"}}` (an `exists` whose
child is a bare alpha on type `"T"`), as `compileConditions` builds it. -/
def c5Node : Node := .logicalExists (.alpha (.str "T") (alphaTestOf none) none none)

/-- The engine state for the C5 scenario: one fact of type `"T"` inserted,
its type promoted into the current dirty set, and one rule compiled from
`{exists: {type: "T"}}` (referenced types `{"T"}`, no negation). -/
def c5State : EngState :=
  { wmi := (WMI.mk0.insertFact ⟨0, [("type", .str "T")], 0⟩).promoteNextCycleDirty,
    rules := [{ name := "R", salience := 0, rootNode := c5Node,
                refTypes := [.str "T"], hasNeg := false,
                action := fun _ _ => [] }],
    firedHistory := [], idCounter := 1 }

/-- Claim C5: the compiler produces `c5Node` for `{exists: {type: "T"}}`
with referenced types `{"T"}`; evaluating the rule in `c5State` (its type
is dirty, so it is not skipped) yields one match with an **empty** fact
list, and the agenda entry's `matchRecency` is `Math.max()` of no numbers,
i.e. `-Infinity` (`none`) — not the `0` the claim demands for empty-fact
matches of rules with non-empty `referencedTypes` (the empty-fact guard
exists only in the `referencedTypes.size === 0` branch). -/
theorem C5_matchRecency_counterexample :
    compileConditions
        (.mk none none none none none none none
          (some (.mk (some "T") none none none none none none none)))
        false [] false
      = .ok (some (.node c5Node), [.str "T"], false)
    ∧ (collectMatches c5State true).1.map (fun e => e.pmatch.facts) = [[]]
    ∧ (collectMatches c5State true).1.map (fun e => e.matchRecency) = [none]
    ∧ ¬ (none : Option Nat) = some 0 := by
  refine ⟨?_, rfl, rfl, by decide⟩
  simp [compileConditions, c5Node, alphaTestOf, setAdd]

/-! ### Claim C9: the empty condition object -/

/-- Claim C9: compiling `{}` raises no `InvalidDSL` — it returns no node at
all (the source returns `undefined`); `initializeNodesWithWMI` then throws
the generic TypeError when `addRule` injects working memory, so `addRule`
on `{}` fails with that TypeError and not with `InvalidDSL`. -/
theorem C9_emptyCond_typeError :
    compileConditions emptyCond false [] false = .ok (none, [], false)
    ∧ initializeNodesWithWMI none WMI.mk0 = .error .typeError
    ∧ addRule ⟨WMI.mk0, [], [], 0⟩ "R" none emptyCond (fun _ _ => [])
        = .error .typeError := by
  refine ⟨?_, rfl, ?_⟩
  · simp [compileConditions, emptyCond]
  · simp [addRule, compileConditions, emptyCond, initializeNodesWithWMI]

/-! ### Claim C1: accumulator `var` bindings -/

/-- The condition `{type: "P", var: "count", accumulate: {aggregator:
facts => facts.length, test: () => true}}`. -/
def c1Cond : Cond :=
  .mk (some "P") none (some "count")
    (some { aggregator := some (fun fs => .num fs.length),
            accTest := fun _ => true,
            initial := none, reduce := none, retract := none, convert := none })
    none none none none

/-- What the compiler builds for `c1Cond`: the accumulator node wrapping the
alpha; `AccumulatorNode`'s constructor does not take the `varName` the
compiler passes, so the node stores no variable name. -/
def c1Node : Node :=
  .accSimple (.alpha (.str "P") (alphaTestOf none) none none)
    (fun fs => .num fs.length) (fun _ => true)

/-- Claim C1, the code's behaviour at the failing input: compiling
`c1Cond` (atomic condition with both `var` and `accumulate`) yields
`c1Node`; evaluating it over a working memory holding one `"P"` fact emits
exactly one match whose test accepted — but its `bindings` are empty: the
lookup of `"count"` yields `undefined` (`none`), not the aggregate value
`1` the claim (and the repository's own tests) expect. -/
theorem C1_accumulator_binding_bug :
    compileConditions c1Cond false [] false
      = .ok (some (.node c1Node), [.str "P"], false)
    ∧ (evalNode c1Node (WMI.mk0.insertFact ⟨0, [("type", .str "P")], 0⟩)).1
        = [{ facts := [⟨0, [("type", .str "P")], 1⟩], bindings := [] }]
    ∧ ((evalNode c1Node (WMI.mk0.insertFact ⟨0, [("type", .str "P")], 0⟩)).1.map
          fun m => alookup "count" m.bindings) = [none] := by
  refine ⟨?_, rfl, rfl⟩
  simp [compileConditions, c1Cond, c1Node, alphaTestOf, setAdd]

/-! ### Claim C6: incremental accumulator without `retract` -/

/-- An incremental count: `initial() = 0`, `reduce = s => s + 1` (on the
numeric state), no `retract`, identity `convert`, always-true test. -/
def c6Spec : IncrSpec :=
  { initial := .num 0,
    reduce := fun s _ => match s with | .num n => .num (n + 1) | v => v,
    retract := none,
    convert := fun s => s,
    test := fun _ => true }

/-- Claim C6, the code's behaviour at the failing input: the accumulator
state has processed fact 0 (state = 1); the current child facts are just
the new fact 1, so fact 0 is in the remove-set and `retract` is absent.
The code resets the state to `initial()` but then pushes *all* current
facts onto the already-computed add-set (`toAdd.push(...allFacts)`), so
the new fact is reduced **twice**: the emitted `accumulatorResult` is `2`,
while folding `reduce` once per current fact from `initial()` — what the
claim and the spec prescribe — gives `1`. -/
theorem C6_incremental_reset_double_reduce :
    evaluateIncremental c6Spec
        (some { accState := .num 1,
                processedFacts := [(0, ⟨0, [("type", .str "P")], 1⟩)] })
        [⟨1, [("type", .str "P")], 2⟩]
      = ([{ facts := [⟨1, [("type", .str "P")], 2⟩], bindings := [],
            accumulatorResult := some (.num 2) }],
         some { accState := .num 2,
                processedFacts := [(1, ⟨1, [("type", .str "P")], 2⟩)] })
    ∧ [(⟨1, [("type", .str "P")], 2⟩ : Fact)].foldl c6Spec.reduce c6Spec.initial
        = .num 1
    ∧ ¬ (Val.num 2) = .num 1 := by
  refine ⟨rfl, rfl, by decide⟩

/-! ### Claim C3: `MaxCyclesExceeded` -/

lemma runLoop_cycles_le (skip : Bool) (fuel : Nat) :
    ∀ st, (runLoop skip st fuel).cycles ≤ fuel := by
  induction fuel with
  | zero =>
    intro st
    exact Nat.le_refl 0
  | succ fuel ih =>
    intro st
    simp only [runLoop]
    split
    · exact Nat.zero_le _
    · split
      · exact Nat.succ_le_succ (Nat.zero_le _)
      · split
        · exact Nat.succ_le_succ (Nat.zero_le _)
        · exact Nat.succ_le_succ (ih _)

lemma runLoop_exit_empty_lt (skip : Bool) (fuel : Nat) :
    ∀ st, (runLoop skip st fuel).exit = .emptyAgenda →
      (runLoop skip st fuel).cycles < fuel := by
  induction fuel with
  | zero =>
    intro st h
    simp only [runLoop] at h
    have h2 : ExitKind.guardExit = ExitKind.emptyAgenda := h
    cases h2
  | succ fuel ih =>
    intro st
    simp only [runLoop]
    split
    · intro _
      exact Nat.zero_lt_succ _
    · split
      · intro h
        have h2 : ExitKind.actionError = ExitKind.emptyAgenda := h
        cases h2
      · split
        · intro h
          have h2 : ExitKind.nothingFired = ExitKind.emptyAgenda := h
          cases h2
        · intro h
          exact Nat.succ_lt_succ (ih _ h)

/-- Claim C3, amended: `run()` raises `MaxCyclesExceeded` exactly when the
completed cycle count equals `maxCycles` and no action threw first; a run
whose agenda comes up empty at the start of a cycle always terminates
without raising (that exit never consumed the whole budget).  A cycle that
fires nothing, however, terminates normally only when it was not the
`maxCycles`-th cycle — if it is, `run()` still raises, as the
counterexample shows. -/
theorem C3_run_amended (st : EngState) (maxCycles : Nat) :
    ((run st maxCycles).raised = true ↔
      ((run st maxCycles).cycles = maxCycles
        ∧ ¬ (run st maxCycles).exit = .actionError))
    ∧ ((run st maxCycles).exit = .emptyAgenda → (run st maxCycles).raised = false) := by
  have hle := runLoop_cycles_le true maxCycles st
  constructor
  · simp only [run]
    constructor
    · intro h
      rw [Bool.and_eq_true] at h
      refine ⟨Nat.le_antisymm hle (of_decide_eq_true h.2), ?_⟩
      exact bne_iff_ne.mp h.1
    · intro h
      rw [Bool.and_eq_true]
      exact ⟨bne_iff_ne.mpr h.2, decide_eq_true h.1.ge⟩
  · intro hemp
    have hlt := runLoop_exit_empty_lt true maxCycles st hemp
    simp only [run]
    rw [Bool.and_eq_false_iff]
    right
    exact decide_eq_false (Nat.not_le.mpr hlt)

/-- A rule with no referenced types (the compiled form of the top-level
bare beta test `{test: () => true}`: a `BetaTestNode` over `NoFactNode`)
whose action mutates nothing. -/
def c3Rule : MRule :=
  { name := "R", salience := 0, rootNode := .betaTest .noFact (fun _ _ => true),
    refTypes := [], hasNeg := false, action := fun _ _ => [] }

/-- A fresh engine holding only `c3Rule`, with `maxCycles = 1`. -/
def c3State : EngState := { wmi := WMI.mk0, rules := [c3Rule], firedHistory := [], idCounter := 0 }

/-- Claim C3, counterexample: with `maxCycles = 1`, the first `run()` fires
the rule once and raises; calling `run()` again on the resulting engine
gives a run whose single cycle has a non-empty agenda but fires *nothing*
(the only match is refracted) — and `run()` still raises
`MaxCyclesExceeded`, contradicting the claim that a cycle firing nothing
makes `run()` terminate normally without raising. -/
theorem C3_counterexample :
    (run (run c3State 1).state 1).exit = .nothingFired
    ∧ (run (run c3State 1).state 1).events = []
    ∧ (run (run c3State 1).state 1).raised = true := by
  refine ⟨rfl, rfl, rfl⟩

/-! ### Claim C2: refraction -/

lemma mem_setAdd_mono {α : Type} [DecidableEq α] {l : List α} {a : α} (b : α)
    (h : a ∈ l) : a ∈ setAdd l b := by
  unfold setAdd
  split
  · exact h
  · exact List.mem_append_left _ h

lemma applyWMOp_fired (st st2 : EngState) (op : WMOp)
    (h : applyWMOp st op = .ok st2) : st2.firedHistory = st.firedHistory := by
  cases op with
  | add data =>
    simp only [applyWMOp, engineAddFact] at h
    split at h
    · cases h
    · injection h with h
      rw [← h]
  | update factId data =>
    simp only [applyWMOp] at h
    rcases hu : st.wmi.updateFact factId data with e | w
    · rw [hu] at h
      simp only [Except.map] at h
      cases h
    · rw [hu] at h
      simp only [Except.map] at h
      injection h with h
      rw [← h]
  | remove factId =>
    simp only [applyWMOp] at h
    rcases hu : st.wmi.removeFact factId with e | w
    · rw [hu] at h
      simp only [Except.map] at h
      cases h
    · rw [hu] at h
      simp only [Except.map] at h
      injection h with h
      rw [← h]

lemma applyWMOps_fired (ops : List WMOp) :
    ∀ st, (applyWMOps st ops).1.firedHistory = st.firedHistory := by
  induction ops with
  | nil =>
    intro st
    rfl
  | cons op rest ih =>
    intro st
    unfold applyWMOps
    rcases ha : applyWMOp st op with e | st2
    · rfl
    · rw [ih st2, applyWMOp_fired st st2 op ha]

lemma fireMatches_events_sub (l : List AgendaEntry) :
    ∀ st ev, ev ∈ (fireMatches st l).events → ∃ e ∈ l, ev = e.signature := by
  induction l with
  | nil =>
    intro st ev h
    cases h
  | cons e rest ih =>
    intro st ev h
    simp only [fireMatches] at h
    split at h
    · rcases List.mem_singleton.mp h with rfl
      exact ⟨e, List.mem_cons_self _ _, rfl⟩
    · rcases List.mem_cons.mp h with rfl | h2
      · exact ⟨e, List.mem_cons_self _ _, rfl⟩
      · obtain ⟨e2, he2, rfl⟩ := ih _ ev h2
        exact ⟨e2, List.mem_cons_of_mem _ he2, rfl⟩

lemma fireMatches_fired_mono (l : List AgendaEntry) :
    ∀ st sig, sig ∈ st.firedHistory →
      sig ∈ (fireMatches st l).state.firedHistory := by
  induction l with
  | nil =>
    intro st sig h
    exact h
  | cons e rest ih =>
    intro st sig h
    have hops : sig ∈ (applyWMOps st (e.action e.pmatch.facts e.pmatch.bindings)).1.firedHistory := by
      rw [applyWMOps_fired]
      exact h
    simp only [fireMatches]
    split
    · exact hops
    · exact ih _ sig (mem_setAdd_mono _ hops)

lemma mem_insertSorted {α : Type} (le : α → α → Bool) (x y : α) :
    ∀ l, x ∈ insertSorted le y l → x = y ∨ x ∈ l := by
  intro l
  induction l with
  | nil =>
    intro h
    exact Or.inl (List.mem_singleton.mp h)
  | cons z zs ih =>
    intro h
    unfold insertSorted at h
    split at h
    · rcases List.mem_cons.mp h with rfl | h2
      · exact Or.inl rfl
      · exact Or.inr h2
    · rcases List.mem_cons.mp h with rfl | h2
      · exact Or.inr (List.mem_cons_self _ _)
      · rcases ih h2 with h3 | h3
        · exact Or.inl h3
        · exact Or.inr (List.mem_cons_of_mem _ h3)

lemma mem_stableSort {α : Type} (le : α → α → Bool) :
    ∀ l (x : α), x ∈ stableSort le l → x ∈ l := by
  intro l
  induction l with
  | nil =>
    intro x h
    exact h
  | cons y ys ih =>
    intro x h
    rcases mem_insertSorted le x y _ h with rfl | h2
    · exact List.mem_cons_self _ _
    · exact List.mem_cons_of_mem _ (ih x h2)

lemma mem_defaultConflictResolver (fired : List String) (agenda : List AgendaEntry)
    (e : AgendaEntry) (h : e ∈ defaultConflictResolver fired agenda) :
    e ∈ agenda ∧ ¬ e.signature ∈ fired := by
  unfold defaultConflictResolver at h
  have h2 := mem_stableSort _ _ e h
  refine ⟨List.mem_of_mem_filter h2, ?_⟩
  have h3 := List.of_mem_filter h2
  simpa using h3

lemma fire_resolved_refraction (st : EngState) (agenda : List AgendaEntry)
    (sig : String) (h : sig ∈ st.firedHistory) :
    (¬ sig ∈ (fireMatches st (defaultConflictResolver st.firedHistory agenda)).events)
    ∧ sig ∈ (fireMatches st (defaultConflictResolver st.firedHistory agenda)).state.firedHistory := by
  constructor
  · intro hev
    obtain ⟨e, he, rfl⟩ := fireMatches_events_sub _ st _ hev
    exact (mem_defaultConflictResolver _ _ e he).2 h
  · exact fireMatches_fired_mono _ st sig h

/-- The agenda-collection step of one `run()` cycle: promote the dirty
types, then `collectMatches(skipCleanAlpha)`. -/
def cycleCollect (skip : Bool) (st : EngState) : List AgendaEntry × EngState :=
  collectMatches { st with wmi := st.wmi.promoteNextCycleDirty } skip

/-- The firing step of one `run()` cycle: resolve the agenda with the
default resolver and fire. -/
def cycleFire (skip : Bool) (st : EngState) : FireResult :=
  fireMatches (cycleCollect skip st).2
    (defaultConflictResolver (cycleCollect skip st).2.firedHistory (cycleCollect skip st).1)

/-- The state a completed (fired, no-error) cycle hands to the next one:
the fire result with the current dirty set cleared. -/
def cycleNext (skip : Bool) (st : EngState) : EngState :=
  { (cycleFire skip st).state with
    wmi := (cycleFire skip st).state.wmi.clearDirtyCurrentCycle }

lemma runLoop_refraction (skip : Bool) (fuel : Nat) :
    ∀ st sig, sig ∈ st.firedHistory →
      (¬ sig ∈ (runLoop skip st fuel).events)
      ∧ sig ∈ (runLoop skip st fuel).state.firedHistory := by
  induction fuel with
  | zero =>
    intro st sig h
    exact ⟨List.not_mem_nil sig, h⟩
  | succ fuel ih =>
    intro st sig h
    have hc : sig ∈ (collectMatches { st with wmi := st.wmi.promoteNextCycleDirty } skip).2.firedHistory := h
    simp only [runLoop]
    split
    · exact ⟨List.not_mem_nil sig, hc⟩
    · split
      · exact ⟨(fire_resolved_refraction _ _ sig hc).1,
          (fire_resolved_refraction _ _ sig hc).2⟩
      · split
        · exact ⟨(fire_resolved_refraction _ _ sig hc).1,
            (fire_resolved_refraction _ _ sig hc).2⟩
        · have h1 := fire_resolved_refraction
            (collectMatches { st with wmi := st.wmi.promoteNextCycleDirty } skip).2
            (collectMatches { st with wmi := st.wmi.promoteNextCycleDirty } skip).1
            sig hc
          constructor
          · intro hx
            rcases List.mem_append.mp hx with hx | hx
            · exact h1.1 hx
            · exact absurd hx ((ih (cycleNext skip st) sig h1.2).1)
          · exact (ih (cycleNext skip st) sig h1.2).2

/-- Claim C2, amended: under the default conflict resolver, once a
signature is in `firedHistory` it never fires again, across every later
cycle, `run()` invocation and interleaved host mutation of the engine's
lifetime, and it stays in `firedHistory` forever.  (A signature enters
`firedHistory` when an entry bearing it fires and its action returns
normally.  The claim's stronger "fires at most once per lifetime" fails
within a single cycle: several matches sharing one signature all pass the
refraction filter together and each fires — see the counterexample.) -/
theorem C2_refraction_amended (maxCycles : Nat) (steps : List SessionStep) :
    ∀ st sig, sig ∈ st.firedHistory →
      (¬ sig ∈ (session maxCycles st steps).1)
      ∧ sig ∈ (session maxCycles st steps).2.firedHistory := by
  induction steps with
  | nil =>
    intro st sig h
    exact ⟨List.not_mem_nil sig, h⟩
  | cons step rest ih =>
    intro st sig h
    cases step with
    | mutate ops =>
      refine ih _ sig ?_
      rw [applyWMOps_fired]
      exact h
    | runStep =>
      have h1 := runLoop_refraction true maxCycles st sig h
      have h2 := ih (run st maxCycles).state sig h1.2
      constructor
      · intro hx
        rcases List.mem_append.mp hx with hx | hx
        · exact h1.1 hx
        · exact h2.1 hx
      · exact h2.2

/-- Witness for `C2_refraction_amended`: an engine whose history already
holds `"R::"` runs once (empty rule set); the signature neither fires nor
leaves the history. -/
theorem C2_refraction_amended_witness :
    "R::" ∈ (⟨WMI.mk0, [], ["R::"], 0⟩ : EngState).firedHistory
    ∧ (¬ "R::" ∈ (session 1 ⟨WMI.mk0, [], ["R::"], 0⟩ [.runStep]).1)
    ∧ "R::" ∈ (session 1 ⟨WMI.mk0, [], ["R::"], 0⟩ [.runStep]).2.firedHistory :=
  ⟨by decide,
   (C2_refraction_amended 1 [.runStep] ⟨WMI.mk0, [], ["R::"], 0⟩ "R::" (by decide)).1,
   (C2_refraction_amended 1 [.runStep] ⟨WMI.mk0, [], ["R::"], 0⟩ "R::" (by decide)).2⟩

/-- The compiled rule of `{name: "R", conditions: {any: [{type: "T"},
{type: "T"}]}}`: a `LogicalAny` over two alphas on the same type. -/
def c2Rule : MRule :=
  { name := "R", salience := 0,
    rootNode := .logicalAny [.alpha (.str "T") (alphaTestOf none) none none,
                             .alpha (.str "T") (alphaTestOf none) none none],
    refTypes := [.str "T"], hasNeg := false, action := fun _ _ => [] }

/-- A fresh engine with one `"T"` fact and the overlapping-`any` rule. -/
def c2State : EngState :=
  { wmi := WMI.mk0.insertFact ⟨0, [("type", .str "T")], 0⟩,
    rules := [c2Rule], firedHistory := [], idCounter := 1 }

/-- Claim C2, counterexample: both `any` branches match the same fact, so
the cycle's agenda holds two entries with the *same* signature `"R::0"`;
neither is in `firedHistory` when the resolver filters, so both fire — the
rule fires twice on one signature within a single engine lifetime, and the
fact set was never mutated. -/
theorem C2_counterexample :
    compileConditions
        (.mk none none none none none
          (some [.mk (some "T") none none none none none none none,
                 .mk (some "T") none none none none none none none])
          none none) false [] false
      = .ok (some (.node c2Rule.rootNode), [.str "T"], false)
    ∧ (run c2State 100).events = ["R::0", "R::0"]
    ∧ (run c2State 100).events.count "R::0" = 2 := by
  refine ⟨?_, rfl, rfl⟩
  simp [compileConditions, compileLogicalNode, compileChildren, c2Rule, alphaTestOf, setAdd]

/-! ### Claim C4: dirty-skip soundness -/

lemma mem_insertSorted_intro {α : Type} (le : α → α → Bool) (y : α) :
    ∀ (l : List α) (x : α), x = y ∨ x ∈ l → x ∈ insertSorted le y l := by
  intro l
  induction l with
  | nil =>
    intro x h
    rcases h with rfl | h
    · exact List.mem_singleton_self x
    · cases h
  | cons z zs ih =>
    intro x h
    unfold insertSorted
    split
    · rcases h with rfl | h
      · exact List.mem_cons_self _ _
      · exact List.mem_cons_of_mem _ h
    · rcases h with rfl | h
      · exact List.mem_cons_of_mem _ (ih x (Or.inl rfl))
      · rcases List.mem_cons.mp h with rfl | h2
        · exact List.mem_cons_self _ _
        · exact List.mem_cons_of_mem _ (ih x (Or.inr h2))

lemma mem_stableSort_intro {α : Type} (le : α → α → Bool) :
    ∀ (l : List α) (x : α), x ∈ l → x ∈ stableSort le l := by
  intro l
  induction l with
  | nil =>
    intro x h
    cases h
  | cons y ys ih =>
    intro x h
    show x ∈ insertSorted le y (stableSort le ys)
    rcases List.mem_cons.mp h with rfl | h2
    · exact mem_insertSorted_intro le _ _ _ (Or.inl rfl)
    · exact mem_insertSorted_intro le _ _ _ (Or.inr (ih x h2))

lemma fireMatches_adds : ∀ (l : List AgendaEntry) (st : EngState),
    (fireMatches st l).err = none →
    ∀ e ∈ l, e.signature ∈ (fireMatches st l).state.firedHistory := by
  intro l
  induction l with
  | nil =>
    intro st _ e he
    cases he
  | cons e rest ih =>
    intro st herr e2 he2
    simp only [fireMatches] at herr ⊢
    rcases ha : (applyWMOps st (e.action e.pmatch.facts e.pmatch.bindings)).2 with _ | err
    · simp only [ha] at herr ⊢
      rcases List.mem_cons.mp he2 with rfl | h2
      · exact fireMatches_fired_mono rest _ _ (mem_setAdd_self _ _)
      · exact ih _ herr e2 h2
    · simp only [ha] at herr
      exact Option.noConfusion herr

/-- The skipped-rule agenda entries all carry already-fired signatures, so
the two collection modes agree after the refraction filter. -/
lemma collectRules_filter_eq (fired : List String) (w : WMI) :
    ∀ rules : List MRule,
    (∀ r ∈ rules, r.refTypes.isEmpty = false → r.hasNeg = false →
      (w.getDirtyTypesCurrentCycle.any fun dt => dt ∈ r.refTypes) = false →
      ∀ m ∈ (evalNode r.rootNode w).1, buildMatchSignature r.name m ∈ fired) →
    (collectMatchesRules true rules w).1.filter (fun a => ¬ a.signature ∈ fired)
      = (collectMatchesRules false rules w).1.filter (fun a => ¬ a.signature ∈ fired) := by
  intro rules
  induction rules with
  | nil =>
    intro _
    rfl
  | cons r rest ih =>
    intro hcov
    have ihr := ih (fun r2 h2 => hcov r2 (List.mem_cons_of_mem _ h2))
    simp only [collectMatchesRules]
    by_cases hempty : r.refTypes.isEmpty = true
    · simp only [if_pos hempty]
      rw [List.filter_append, List.filter_append, evalNode_wmi r.rootNode w, ihr]
    · have hemp2 : r.refTypes.isEmpty = false := Bool.eq_false_iff.mpr hempty
      simp only [if_neg hempty]
      by_cases hskip : r.hasNeg = false
          ∧ (w.getDirtyTypesCurrentCycle.any fun dt => dt ∈ r.refTypes) = false
      · have hc1 : True ∧ ¬ r.hasNeg = true
            ∧ ¬ (w.getDirtyTypesCurrentCycle.any fun dt => dt ∈ r.refTypes) = true :=
          ⟨trivial, by rw [hskip.1]; exact Bool.false_ne_true,
            by rw [hskip.2]; exact Bool.false_ne_true⟩
        have hc2 : ¬ ((false = true) ∧ ¬ r.hasNeg = true
            ∧ ¬ (w.getDirtyTypesCurrentCycle.any fun dt => dt ∈ r.refTypes) = true) :=
          fun h => absurd h.1 (by decide)
        rw [if_pos hc1, if_neg hc2]
        rw [List.filter_append, evalNode_wmi r.rootNode w]
        have hnil : ((evalNode r.rootNode w).1.map fun m =>
            ({ ruleName := r.name, action := r.action, pmatch := m,
               signature := buildMatchSignature r.name m,
               salience := r.salience,
               matchRecency := (m.facts.map Fact.recency).max? } : AgendaEntry)).filter
              (fun a => ¬ a.signature ∈ fired) = [] := by
          rw [List.filter_eq_nil_iff]
          intro a ha
          rw [List.mem_map] at ha
          obtain ⟨m, hm, rfl⟩ := ha
          simp only [decide_not, Bool.not_eq_true', Bool.not_eq_false]
          exact decide_eq_true (hcov r (List.mem_cons_self _ _) hemp2 hskip.1 hskip.2 m hm)
        rw [hnil, List.nil_append]
        exact ihr
      · have hc1 : ¬ (True ∧ ¬ r.hasNeg = true
            ∧ ¬ (w.getDirtyTypesCurrentCycle.any fun dt => dt ∈ r.refTypes) = true) :=
          fun h => hskip ⟨Bool.eq_false_iff.mpr h.2.1, Bool.eq_false_iff.mpr h.2.2⟩
        have hc2 : ¬ ((false = true) ∧ ¬ r.hasNeg = true
            ∧ ¬ (w.getDirtyTypesCurrentCycle.any fun dt => dt ∈ r.refTypes) = true) :=
          fun h => absurd h.1 (by decide)
        rw [if_neg hc1, if_neg hc2]
        rw [List.filter_append, List.filter_append, evalNode_wmi r.rootNode w, ihr]

/-- The condition `{type: "T", accumulate: {aggregator: facts =>
facts.length, test: c => c === 0}}`: a count-is-zero accumulator. -/
def c4Cond : Cond :=
  .mk (some "T") none none
    (some { aggregator := some (fun fs => .num fs.length),
            accTest := fun v => v == Val.num 0,
            initial := none, reduce := none, retract := none, convert := none })
    none none none none

/-- The compiled network of `c4Cond`. -/
def c4Node : Node :=
  .accSimple (.alpha (.str "T") (alphaTestOf none) none none)
    (fun fs => .num fs.length) (fun v => v == Val.num 0)

/-- A fresh engine holding only the count-is-zero rule and **no** facts:
the type `"T"` is never dirtied. -/
def c4State : EngState :=
  { wmi := WMI.mk0,
    rules := [{ name := "A", salience := 0, rootNode := c4Node,
                refTypes := [.str "T"], hasNeg := false,
                action := fun _ _ => [] }],
    firedHistory := [], idCounter := 0 }

/-- Claim C4, counterexample: the count-is-zero rule has non-empty
`referencedTypes` and no negation, yet with no `"T"` fact ever inserted
its type is never dirty, so the engine (skip mode, the left run) skips it
every cycle and fires nothing — while evaluating every rule's network
every cycle (`collectMatches(false)`, the right run) produces the
empty-aggregate match and fires it once.  The firing sequences differ, so
the skip **does** lose a firing. -/
theorem C4_counterexample :
    compileConditions c4Cond false [] false
      = .ok (some (.node c4Node), [.str "T"], false)
    ∧ (runLoop true c4State 100).events = []
    ∧ (runLoop false c4State 100).events = ["A::"]
    ∧ ¬ (runLoop true c4State 100).events = (runLoop false c4State 100).events := by
  refine ⟨?_, rfl, rfl, by decide⟩
  simp [compileConditions, c4Cond, c4Node, alphaTestOf, setAdd]

/-- Claim C4, amended (the per-cycle form the code supports): consider any
engine state at the point where a cycle builds its agenda, and suppose
every rule the dirty-skip would pass over — non-empty `referencedTypes`,
no negation, no referenced type currently dirty — only has pending matches
whose signatures are already in `firedHistory`.  (This holds from engine
start except for rules that can match over never-dirtied types, e.g. an
accumulator accepting the empty aggregate — the counterexample.)  Then
(1) the resolved agenda is identical whether or not the skip is applied,
so the cycle fires exactly the same sequence either way; and (2) when the
cycle's firing completes without a throwing action, *every* collected
match signature is in `firedHistory` afterwards — which is how an
evaluated rule's pending matches become covered for the following
cycles. -/
theorem C4_dirty_skip_amended (st : EngState)
    (hcov : ∀ r ∈ st.rules, r.refTypes.isEmpty = false → r.hasNeg = false →
      (st.wmi.getDirtyTypesCurrentCycle.any fun dt => dt ∈ r.refTypes) = false →
      ∀ m ∈ (evalNode r.rootNode st.wmi).1,
        buildMatchSignature r.name m ∈ st.firedHistory) :
    defaultConflictResolver st.firedHistory (collectMatches st true).1
      = defaultConflictResolver st.firedHistory (collectMatches st false).1
    ∧ ((fireMatches (collectMatches st true).2
          (defaultConflictResolver (collectMatches st true).2.firedHistory
            (collectMatches st true).1)).err = none →
        ∀ e ∈ (collectMatches st true).1,
          e.signature ∈ (fireMatches (collectMatches st true).2
            (defaultConflictResolver (collectMatches st true).2.firedHistory
              (collectMatches st true).1)).state.firedHistory) := by
  constructor
  · show stableSort _ ((collectMatchesRules true st.rules st.wmi).1.filter _)
      = stableSort _ ((collectMatchesRules false st.rules st.wmi).1.filter _)
    rw [collectRules_filter_eq st.firedHistory st.wmi st.rules hcov]
  · intro herr e he
    by_cases hf : e.signature ∈ (collectMatches st true).2.firedHistory
    · exact fireMatches_fired_mono _ _ _ hf
    · refine fireMatches_adds _ _ herr e ?_
      refine mem_stableSort_intro _ _ e ?_
      refine List.mem_filter.mpr ⟨he, ?_⟩
      simpa using hf

/-- A state for the witness: an alpha rule on `"T"` whose only match is
already refracted, nothing dirty — the rule is skipped and the skip loses
nothing. -/
def c4wState : EngState :=
  { wmi := { typeIndex := [(.str "T", [⟨0, [("type", .str "T")], 1⟩])],
             versionCounter := 2, dirtyCur := [], dirtyNext := [] },
    rules := [{ name := "W", salience := 0,
                rootNode := .alpha (.str "T") (alphaTestOf none) none none,
                refTypes := [.str "T"], hasNeg := false,
                action := fun _ _ => [] }],
    firedHistory := ["W::0"], idCounter := 1 }

/-- Witness for `C4_dirty_skip_amended` at `c4wState`. -/
theorem C4_dirty_skip_amended_witness :
    (∀ r ∈ c4wState.rules, r.refTypes.isEmpty = false → r.hasNeg = false →
      (c4wState.wmi.getDirtyTypesCurrentCycle.any fun dt => dt ∈ r.refTypes) = false →
      ∀ m ∈ (evalNode r.rootNode c4wState.wmi).1,
        buildMatchSignature r.name m ∈ c4wState.firedHistory)
    ∧ (defaultConflictResolver c4wState.firedHistory (collectMatches c4wState true).1
        = defaultConflictResolver c4wState.firedHistory (collectMatches c4wState false).1
      ∧ ((fireMatches (collectMatches c4wState true).2
            (defaultConflictResolver (collectMatches c4wState true).2.firedHistory
              (collectMatches c4wState true).1)).err = none →
          ∀ e ∈ (collectMatches c4wState true).1,
            e.signature ∈ (fireMatches (collectMatches c4wState true).2
              (defaultConflictResolver (collectMatches c4wState true).2.firedHistory
                (collectMatches c4wState true).1)).state.firedHistory)) :=
  ⟨by decide, C4_dirty_skip_amended c4wState (by decide)⟩

end TheRulesEngine
